import Mathlib

/-!
Shallow embedding of the xcmpt entity-component store (src/component.rs,
src/storage.rs, src/ecs.rs, src/query.rs).  Component values are modelled
as natural numbers, component type identifiers as natural numbers, and the
per-type slot `Slot<C>` (empty or filled) as `Option Nat`.  Machine `usize`
arithmetic is modelled by `Nat`; the only subtraction the code performs
(`entity_count -= 1`) happens while the count is positive.  Operations that
can panic in Rust (`assert!`, `todo!`, `unwrap`, out-of-bounds indexing)
return `none`.
-/

namespace Xcmpt

/-- Round `n` up to the next multiple of `a` (for `a > 0`). -/
def roundUp (n a : Nat) : Nat := (n + a - 1) / a * a

/-- Layout of a Rust type: byte size and alignment (`core::alloc::Layout`). -/
structure Layout where
  size : Nat
  align : Nat
deriving DecidableEq, Repr

/-- Layout of `Slot<C>` for a component type of layout `c`, following the
`repr(u8)` enum layout rules: a one-byte tag, the payload placed at offset
`roundUp 1 align`, and the total size rounded up to the alignment, where
`align = max 1 c.align`. -/
def slotLayout (c : Layout) : Layout :=
  { size := roundUp (roundUp 1 (max 1 c.align) + c.size) (max 1 c.align),
    align := max 1 c.align }

/-- Payload offset inside one slot: the offset of the `C` field after the
one-byte tag of the `repr(u8)` enum. -/
def payloadOffset (c : Layout) : Nat := roundUp 1 (max 1 c.align)

/-- Per-type metadata (src/component.rs `ComponentInfo`, minus the erased
destructor pointer, which is modelled separately at the slot level). -/
structure ComponentInfo where
  layout : Layout
  stride : Nat
deriving DecidableEq, Repr

/-- Metadata computation (src/component.rs `ComponentInfo::new::<C>`):
`layout = Layout::new::<Slot<C>>()` and
`stride = layout.size() + layout.size() % layout.align()`. -/
def ComponentInfo.new (c : Layout) : ComponentInfo :=
  { layout := slotLayout c,
    stride := (slotLayout c).size + (slotLayout c).size % (slotLayout c).align }

/-- Byte-level view of one slot: the tag byte at offset 0 and the payload
bytes after it (src/storage.rs `Slot` is `repr(u8)` with `Empty = 0`). -/
structure ByteSlot where
  tag : Nat
  payload : List Nat
deriving DecidableEq, Repr

/-- Byte-level model of `ComponentArray::delete_index` (src/storage.rs):
`(self.component_info.drop)(ptr)` runs the payload destructor exactly when
the slot tag is nonzero (`drop_in_place` of a `Slot` drops the payload only
for the filled variant), and then `*ptr = 0` writes a single zero byte at
the tag's offset.  Returns the updated array together with the number of
payload-destructor invocations. -/
def deleteIndexByte (arr : List ByteSlot) (i : Nat) : List ByteSlot × Nat :=
  match arr[i]? with
  | some s => (arr.set i { tag := 0, payload := s.payload }, if s.tag = 0 then 0 else 1)
  | none => (arr, 0)

/-- Logical slot: `Slot::Empty ↦ none`, a filled slot ↦ `some v`. -/
abbrev Slot := Option Nat

/-- Entity record (src/ecs.rs `struct Entity`). -/
structure Entity where
  alive : Bool
  generation : Nat
deriving DecidableEq, Repr

/-- Entity handle (src/ecs.rs `EntityID`); `sceneId` models the per-store
`RuntimeID`. -/
structure EntityID where
  sceneId : Nat
  index : Nat
  generation : Nat
deriving DecidableEq, Repr

/-- Store state (src/ecs.rs `struct ECS`).  The `ComponentMap` of
src/storage.rs is an association list from component type id to that
type's slot array. -/
structure ECS where
  sceneId : Nat
  capacity : Nat
  entityCount : Nat
  growFn : Option (Nat → Nat)
  entities : List Entity
  components : List (Nat × List Slot)

/-- Lookup in the component map (`HashMap::get`). -/
def mapGet (cid : Nat) : List (Nat × List Slot) → Option (List Slot)
  | [] => none
  | p :: ps => if p.1 = cid then some p.2 else mapGet cid ps

/-- Insertion into the component map (`HashMap::insert`, replacing any
existing entry for the key). -/
def mapInsert (cid : Nat) (arr : List Slot) :
    List (Nat × List Slot) → List (Nat × List Slot)
  | [] => [(cid, arr)]
  | p :: ps => if p.1 = cid then (cid, arr) :: ps else p :: mapInsert cid arr ps

/-- Update of the array stored at `cid`, if present (a write through
`ComponentMap::get_array_mut`; map keys are unique, so updating the first
match is the `HashMap` behaviour). -/
def mapUpdate (cid : Nat) (f : List Slot → List Slot) :
    List (Nat × List Slot) → List (Nat × List Slot)
  | [] => []
  | p :: ps => if p.1 = cid then (p.1, f p.2) :: ps else p :: mapUpdate cid f ps

/-- Resize of a `Vec` (`Vec::resize`): extend with copies of `d`, or
truncate. -/
def vecResize {α : Type} (l : List α) (n : Nat) (d : α) : List α :=
  if n ≤ l.length then l.take n else l ++ List.replicate (n - l.length) d

/-- Resize of one `ComponentArray` (src/storage.rs `resize`): allocate a
zeroed buffer of the new length and copy the old slots into it verbatim.
The Rust code is only invoked for growth (`grow_capacity_to_size` asserts
`new_capacity > capacity` first); for smaller lengths the replicate count
is `0`. -/
def arrayResize (arr : List Slot) (n : Nat) : List Slot :=
  arr ++ List.replicate (n - arr.length) (none : Slot)

/-- Clearing of index `i` in every component array
(`ComponentMap::delete_index`). -/
def deleteIndexAll (i : Nat) (m : List (Nat × List Slot)) : List (Nat × List Slot) :=
  m.map fun p => (p.1, p.2.set i (none : Slot))

/-- Construction (src/ecs.rs `ECS::new`). -/
def ECS.new (sid capacity : Nat) : ECS :=
  { sceneId := sid, capacity := capacity, entityCount := 0, growFn := none,
    entities := List.replicate capacity { alive := false, generation := 0 },
    components := [] }

/-- Registration of a component type (src/ecs.rs `ECS::register`): a fresh
zeroed array of the current capacity is inserted for `cid`. -/
def ECS.register (e : ECS) (cid : Nat) : ECS :=
  { e with
    components := mapInsert cid (List.replicate e.capacity (none : Slot)) e.components }

/-- Installation of the growth policy (src/ecs.rs `ECS::set_grow_fn`). -/
def ECS.setGrowFn (e : ECS) (g : Option (Nat → Nat)) : ECS := { e with growFn := g }

/-- Validity check (src/ecs.rs `ECS::is_valid`).  Returns `none` where the
Rust code would index out of bounds and panic (same `scene_id` but `index`
not below the entity-table length); that situation is unreachable for
handles the store actually minted, because the table never shrinks. -/
def ECS.isValid (e : ECS) (h : EntityID) : Option Bool :=
  if h.sceneId = e.sceneId then
    match e.entities[h.index]? with
    | some r => some (decide (r = { alive := true, generation := h.generation }))
    | none => none
  else some false

/-- Linear scan for the first dead record, returning its index and the
record.  This is the loop of `ECS::allocate_entity` over `0..capacity`;
the entity table's length equals `capacity` in every reachable state. -/
def firstDead : List Entity → Option (Nat × Entity)
  | [] => none
  | r :: rs => if r.alive then (firstDead rs).map (fun p => (p.1 + 1, p.2)) else some (0, r)

/-- Allocation (src/ecs.rs `ECS::allocate_entity`): mark the first dead
record alive, bump its generation, and hand out the handle. -/
def ECS.allocateEntity (e : ECS) : Option (EntityID × ECS) :=
  match firstDead e.entities with
  | some (i, r) =>
      some ({ sceneId := e.sceneId, index := i, generation := r.generation + 1 },
            { e with
              entities := e.entities.set i { alive := true, generation := r.generation + 1 } })
  | none => none

/-- Growth to an explicit capacity (src/ecs.rs `ECS::grow_capacity_to_size`);
`none` models the `assert!(new_capacity > self.capacity)` panic. -/
def ECS.growCapacityToSize (e : ECS) (n : Nat) : Option ECS :=
  if e.capacity < n then
    some { e with
      capacity := n,
      entities := vecResize e.entities n { alive := false, generation := 0 },
      components := e.components.map fun p => (p.1, arrayResize p.2 n) }
  else none

/-- Growth via the installed policy (src/ecs.rs `ECS::grow_capacity`);
`none` models the `unwrap` panic when no policy is installed. -/
def ECS.growCapacity (e : ECS) : Option ECS :=
  match e.growFn with
  | some g => e.growCapacityToSize (g e.capacity)
  | none => none

/-- Entity creation (src/ecs.rs `ECS::create_entity`).  `some (none, e)` is
the graceful "no room" result; the outer `none` is a panic (an installed
growth policy that fails to grow). -/
def ECS.createEntity (e : ECS) : Option (Option EntityID × ECS) :=
  match e.allocateEntity with
  | some (h, e₁) => some (some h, { e₁ with entityCount := e₁.entityCount + 1 })
  | none =>
    match e.growFn with
    | none => some (none, e)
    | some _ =>
      match e.growCapacity with
      | none => none
      | some e₁ =>
        match e₁.allocateEntity with
        | some (h, e₂) => some (some h, { e₂ with entityCount := e₂.entityCount + 1 })
        | none => none

/-- Entity destruction (src/ecs.rs `ECS::destroy_entity`): when the handle
is valid, decrement the count, clear the index in every component array,
and mark the record dead, leaving its generation in place. -/
def ECS.destroyEntity (e : ECS) (h : EntityID) : Option ECS :=
  match e.isValid h with
  | none => none
  | some false => some e
  | some true =>
      some { e with
        entityCount := e.entityCount - 1,
        components := deleteIndexAll h.index e.components,
        entities :=
          match e.entities[h.index]? with
          | some r => e.entities.set h.index { alive := false, generation := r.generation }
          | none => e.entities }

/-- Presence check (src/ecs.rs `ECS::has_component`). -/
def ECS.hasComponent (e : ECS) (cid : Nat) (h : EntityID) : Option Bool :=
  match e.isValid h with
  | none => none
  | some false => some false
  | some true =>
      match mapGet cid e.components with
      | some arr => some (arr.getD h.index none).isSome
      | none => some false

/-- Component insertion (src/ecs.rs `ECS::add_component`); the `none` on an
unregistered type models the `todo!()` panic. -/
def ECS.addComponent (e : ECS) (cid : Nat) (h : EntityID) (v : Nat) : Option ECS :=
  match e.isValid h with
  | none => none
  | some false => some e
  | some true =>
      match mapGet cid e.components with
      | some _ =>
          some { e with
            components := mapUpdate cid (fun arr => arr.set h.index (some v)) e.components }
      | none => none

/-- Component removal (src/ecs.rs `ECS::remove_component`); the `none` on an
unregistered type models the `todo!()` panic. -/
def ECS.removeComponent (e : ECS) (cid : Nat) (h : EntityID) : Option ECS :=
  match e.isValid h with
  | none => none
  | some false => some e
  | some true =>
      match mapGet cid e.components with
      | some _ =>
          some { e with
            components := mapUpdate cid (fun arr => arr.set h.index (none : Slot)) e.components }
      | none => none

/-- Component read (src/ecs.rs `ECS::get_component`). -/
def ECS.getComponent (e : ECS) (cid : Nat) (h : EntityID) : Option (Option Nat) :=
  match e.isValid h with
  | none => none
  | some false => some none
  | some true =>
      match mapGet cid e.components with
      | some arr => some (arr.getD h.index none)
      | none => some none

/-- One external operation on the store. -/
inductive Op where
  | create : Op
  | destroy : EntityID → Op
  | addComp : Nat → EntityID → Nat → Op
  | removeComp : Nat → EntityID → Op
  | registerComp : Nat → Op
  | growTo : Nat → Op
  | grow : Op
  | setGrow : Option (Nat → Nat) → Op

/-- Effect of one operation; `none` is a panic. -/
def ECS.applyOp (e : ECS) : Op → Option ECS
  | .create => (e.createEntity).map Prod.snd
  | .destroy h => e.destroyEntity h
  | .addComp cid h v => e.addComponent cid h v
  | .removeComp cid h => e.removeComponent cid h
  | .registerComp cid => some (e.register cid)
  | .growTo n => e.growCapacityToSize n
  | .grow => e.growCapacity
  | .setGrow g => some (e.setGrowFn g)

/-- Run of a sequence of operations. -/
def ECS.run (e : ECS) : List Op → Option ECS
  | [] => some e
  | op :: ops => (e.applyOp op).bind fun e₁ => e₁.run ops

/-- Structural invariant of a store: the entity table's length is the
capacity, every component array's length is the capacity, and the cached
`entityCount` counts the alive records. -/
def Inv (e : ECS) : Prop :=
  e.entities.length = e.capacity ∧
  (∀ p ∈ e.components, (p.2 : List Slot).length = e.capacity) ∧
  e.entityCount = e.entities.countP (fun r => r.alive)

/-! Lemmas about the component-map association list. -/

theorem mapGet_mem {cid : Nat} {m : List (Nat × List Slot)} {arr : List Slot}
    (hg : mapGet cid m = some arr) : (cid, arr) ∈ m := by
  induction m with
  | nil => simp [mapGet] at hg
  | cons p ps ih =>
      by_cases hp : p.1 = cid
      · simp only [mapGet, hp, if_pos] at hg
        subst hp
        cases hg
        exact List.mem_cons_self _ _
      · simp only [mapGet, hp, if_neg, if_false] at hg
        exact List.mem_cons_of_mem _ (ih hg)

theorem mapGet_mapUpdate_self (cid : Nat) (f : List Slot → List Slot)
    (m : List (Nat × List Slot)) :
    mapGet cid (mapUpdate cid f m) = (mapGet cid m).map f := by
  induction m with
  | nil => rfl
  | cons p ps ih =>
      by_cases hp : p.1 = cid
      · simp [mapUpdate, mapGet, hp]
      · simp [mapUpdate, mapGet, hp, ih]

theorem mem_mapUpdate {cid : Nat} {f : List Slot → List Slot}
    {m : List (Nat × List Slot)} {p : Nat × List Slot}
    (hp : p ∈ mapUpdate cid f m) :
    p ∈ m ∨ ∃ q ∈ m, p = (q.1, f q.2) := by
  induction m with
  | nil => simp [mapUpdate] at hp
  | cons q qs ih =>
      by_cases hq : q.1 = cid
      · simp only [mapUpdate, hq, if_pos, List.mem_cons] at hp
        rcases hp with hp | hp
        · exact Or.inr ⟨q, List.mem_cons_self _ _, by rw [hq]; exact hp⟩
        · exact Or.inl (List.mem_cons_of_mem _ hp)
      · simp only [mapUpdate, hq, if_neg, if_false, List.mem_cons] at hp
        rcases hp with hp | hp
        · exact Or.inl (hp ▸ List.mem_cons_self _ _)
        · rcases ih hp with h | ⟨r, hr, hpe⟩
          · exact Or.inl (List.mem_cons_of_mem _ h)
          · exact Or.inr ⟨r, List.mem_cons_of_mem _ hr, hpe⟩

theorem mem_mapInsert {cid : Nat} {arr : List Slot}
    {m : List (Nat × List Slot)} {p : Nat × List Slot}
    (hp : p ∈ mapInsert cid arr m) :
    p = (cid, arr) ∨ p ∈ m := by
  induction m with
  | nil => simpa [mapInsert] using hp
  | cons q qs ih =>
      by_cases hq : q.1 = cid
      · simp only [mapInsert, hq, if_pos, List.mem_cons] at hp
        rcases hp with hp | hp
        · exact Or.inl hp
        · exact Or.inr (List.mem_cons_of_mem _ hp)
      · simp only [mapInsert, hq, if_neg, if_false, List.mem_cons] at hp
        rcases hp with hp | hp
        · exact Or.inr (hp ▸ List.mem_cons_self _ _)
        · rcases ih hp with h | h
          · exact Or.inl h
          · exact Or.inr (List.mem_cons_of_mem _ h)

theorem mapGet_map_snd (cid : Nat) (g : List Slot → List Slot)
    (m : List (Nat × List Slot)) :
    mapGet cid (m.map fun p => (p.1, g p.2)) = (mapGet cid m).map g := by
  induction m with
  | nil => rfl
  | cons p ps ih =>
      by_cases hp : p.1 = cid
      · simp [mapGet, hp]
      · simp [mapGet, hp, ih]

/-! Lemmas about resizing. -/

theorem vecResize_length {α : Type} (l : List α) (n : Nat) (d : α) :
    (vecResize l n d).length = n := by
  unfold vecResize
  split
  · rw [List.length_take]
    omega
  · rw [List.length_append, List.length_replicate]
    omega

theorem vecResize_get_lt {α : Type} {l : List α} {n i : Nat} {d : α}
    (hi : i < l.length) (hin : i < n) : (vecResize l n d)[i]? = l[i]? := by
  unfold vecResize
  split
  · rw [List.getElem?_take, if_pos hin]
  · rw [List.getElem?_append_left hi]

theorem vecResize_get_new {α : Type} {l : List α} {n i : Nat} {d : α}
    (hi : l.length ≤ i) (hin : i < n) : (vecResize l n d)[i]? = some d := by
  unfold vecResize
  split
  · omega
  · rw [List.getElem?_append_right hi, List.getElem?_replicate_of_lt (by omega)]

theorem arrayResize_get_lt {arr : List Slot} {n i : Nat}
    (hi : i < arr.length) : (arrayResize arr n)[i]? = arr[i]? := by
  unfold arrayResize
  rw [List.getElem?_append_left hi]

theorem arrayResize_get_new {arr : List Slot} {n i : Nat}
    (hi : arr.length ≤ i) (hin : i < n) : (arrayResize arr n)[i]? = some (none : Slot) := by
  unfold arrayResize
  rw [List.getElem?_append_right hi, List.getElem?_replicate_of_lt (by omega)]

theorem arrayResize_length {arr : List Slot} {n : Nat} (hn : arr.length ≤ n) :
    (arrayResize arr n).length = n := by
  unfold arrayResize
  rw [List.length_append, List.length_replicate]
  omega

/-! Lemmas about the allocation scan. -/

theorem firstDead_none {l : List Entity} :
    firstDead l = none ↔ ∀ r ∈ l, r.alive = true := by
  induction l with
  | nil => simp [firstDead]
  | cons r rs ih =>
      by_cases h : r.alive
      · simp [firstDead, h, Option.map_eq_none', ih]
      · simp [firstDead, h]

theorem firstDead_some {l : List Entity} {i : Nat} {r : Entity}
    (hfd : firstDead l = some (i, r)) :
    l[i]? = some r ∧ r.alive = false ∧
      ∀ j s, j < i → l[j]? = some s → s.alive = true := by
  induction l generalizing i with
  | nil => simp [firstDead] at hfd
  | cons x xs ih =>
      by_cases h : x.alive
      · simp only [firstDead, h, if_pos, Option.map_eq_some'] at hfd
        obtain ⟨⟨i', r'⟩, hp, heq⟩ := hfd
        obtain ⟨hi, hr⟩ : i' + 1 = i ∧ r' = r := by
          constructor <;> cases heq <;> rfl
        subst hi
        subst hr
        obtain ⟨hget, hdead, hmin⟩ := ih hp
        refine ⟨by simpa using hget, hdead, ?_⟩
        intro j s hj hjs
        cases j with
        | zero =>
            simp only [List.getElem?_cons_zero] at hjs
            cases hjs
            exact h
        | succ j =>
            exact hmin j s (by omega) (by simpa using hjs)
      · simp only [firstDead, h, if_neg, if_false] at hfd
        obtain ⟨hi, hr⟩ : 0 = i ∧ x = r := by
          constructor <;> cases hfd <;> rfl
        subst hi
        subst hr
        refine ⟨by simp, by simpa using h, ?_⟩
        intro j s hj
        omega

theorem firstDead_of_first {l : List Entity} {i : Nat} {r : Entity}
    (hget : l[i]? = some r) (hdead : r.alive = false)
    (hmin : ∀ j s, j < i → l[j]? = some s → s.alive = true) :
    firstDead l = some (i, r) := by
  induction l generalizing i with
  | nil => simp at hget
  | cons x xs ih =>
      cases i with
      | zero =>
          simp only [List.getElem?_cons_zero] at hget
          cases hget
          simp [firstDead, hdead]
      | succ i =>
          have hx : x.alive = true := hmin 0 x (Nat.succ_pos _) (by simp)
          have hrec := ih (by simpa using hget)
            (fun j s hj hjs => hmin (j + 1) s (by omega) (by simpa using hjs))
          simp [firstDead, hx, hrec]

/-! Specifications of the entity operations. -/

theorem allocateEntity_eq_some {e : ECS} {i : Nat} {r : Entity}
    (hget : e.entities[i]? = some r) (hdead : r.alive = false)
    (hmin : ∀ j s, j < i → e.entities[j]? = some s → s.alive = true) :
    e.allocateEntity =
      some ({ sceneId := e.sceneId, index := i, generation := r.generation + 1 },
            { e with
              entities := e.entities.set i { alive := true, generation := r.generation + 1 } }) := by
  unfold ECS.allocateEntity
  rw [firstDead_of_first hget hdead hmin]

theorem allocateEntity_spec {e : ECS} {h : EntityID} {e₁ : ECS}
    (halloc : e.allocateEntity = some (h, e₁)) :
    h.sceneId = e.sceneId ∧
      ∃ r, e.entities[h.index]? = some r ∧ r.alive = false ∧
        h.generation = r.generation + 1 ∧
        (∀ j s, j < h.index → e.entities[j]? = some s → s.alive = true) ∧
        e₁ = { e with
          entities := e.entities.set h.index { alive := true, generation := h.generation } } := by
  unfold ECS.allocateEntity at halloc
  cases hfd : firstDead e.entities with
  | none => rw [hfd] at halloc; cases halloc
  | some p =>
      obtain ⟨i, r⟩ := p
      rw [hfd] at halloc
      obtain ⟨hget, hdead, hmin⟩ := firstDead_some hfd
      obtain ⟨hh, he⟩ : ({ sceneId := e.sceneId, index := i, generation := r.generation + 1 }
            : EntityID) = h ∧
          ({ e with
            entities := e.entities.set i { alive := true, generation := r.generation + 1 } }
            : ECS) = e₁ := by
        constructor <;> cases halloc <;> rfl
      subst hh
      subst he
      exact ⟨rfl, r, hget, hdead, rfl, hmin, rfl⟩

theorem allocateEntity_none {e : ECS} :
    e.allocateEntity = none ↔ ∀ r ∈ e.entities, r.alive = true := by
  unfold ECS.allocateEntity
  cases hfd : firstDead e.entities with
  | none => simpa using firstDead_none.mp hfd
  | some p =>
      obtain ⟨i, r⟩ := p
      simp only [hfd]
      obtain ⟨hget, hdead, hmin⟩ := firstDead_some hfd
      constructor
      · intro hc
        cases hc
      · intro hall
        have := hall r (List.getElem?_mem hget)
        rw [hdead] at this
        cases this

theorem growCapacityToSize_spec {e : ECS} {n : Nat} {e₁ : ECS}
    (hg : e.growCapacityToSize n = some e₁) :
    e.capacity < n ∧
      e₁ = { e with
        capacity := n,
        entities := vecResize e.entities n { alive := false, generation := 0 },
        components := e.components.map fun p => (p.1, arrayResize p.2 n) } := by
  unfold ECS.growCapacityToSize at hg
  split at hg
  · exact ⟨by assumption, by cases hg; rfl⟩
  · cases hg

theorem growCapacityToSize_none {e : ECS} {n : Nat} (hn : n ≤ e.capacity) :
    e.growCapacityToSize n = none := by
  unfold ECS.growCapacityToSize
  rw [if_neg (by omega)]

theorem growCapacity_spec {e : ECS} {e₁ : ECS}
    (hg : e.growCapacity = some e₁) :
    ∃ g, e.growFn = some g ∧ e.growCapacityToSize (g e.capacity) = some e₁ := by
  unfold ECS.growCapacity at hg
  cases hgf : e.growFn with
  | none => rw [hgf] at hg; cases hg
  | some g => rw [hgf] at hg; exact ⟨g, rfl, hg⟩

theorem createEntity_some_spec {e : ECS} {h : EntityID} {e₁ : ECS}
    (hc : e.createEntity = some (some h, e₁)) :
    ∃ eb, (eb = e ∨ (e.allocateEntity = none ∧ e.growCapacity = some eb)) ∧
      ∃ ea, eb.allocateEntity = some (h, ea) ∧
        e₁ = { ea with entityCount := ea.entityCount + 1 } := by
  unfold ECS.createEntity at hc
  cases halloc : e.allocateEntity with
  | some q =>
      obtain ⟨h', ea⟩ := q
      simp only [halloc, Option.some.injEq, Prod.mk.injEq] at hc
      obtain ⟨hh, he⟩ := hc
      cases hh
      exact ⟨e, Or.inl rfl, ea, halloc, he.symm⟩
  | none =>
      simp only [halloc] at hc
      cases hgf : e.growFn with
      | none => simp [hgf] at hc
      | some g =>
          simp only [hgf] at hc
          cases hgrow : e.growCapacity with
          | none => simp [hgrow] at hc
          | some eb =>
              simp only [hgrow] at hc
              cases halloc2 : eb.allocateEntity with
              | none => simp [halloc2] at hc
              | some q =>
                  obtain ⟨h', ea⟩ := q
                  simp only [halloc2, Option.some.injEq, Prod.mk.injEq] at hc
                  obtain ⟨hh, he⟩ := hc
                  cases hh
                  exact ⟨eb, Or.inr ⟨rfl, rfl⟩, ea, halloc2, he.symm⟩

theorem createEntity_none_spec {e : ECS} {e₁ : ECS}
    (hc : e.createEntity = some (none, e₁)) :
    e₁ = e ∧ e.growFn = none ∧ ∀ r ∈ e.entities, r.alive = true := by
  unfold ECS.createEntity at hc
  cases halloc : e.allocateEntity with
  | some q =>
      obtain ⟨h', ea⟩ := q
      simp [halloc] at hc
  | none =>
      simp only [halloc] at hc
      cases hgf : e.growFn with
      | none =>
          simp only [hgf, Option.some.injEq, Prod.mk.injEq, true_and] at hc
          exact ⟨hc.symm, rfl, allocateEntity_none.mp halloc⟩
      | some g =>
          simp only [hgf] at hc
          cases hgrow : e.growCapacity with
          | none => simp [hgrow] at hc
          | some eb =>
              simp only [hgrow] at hc
              cases halloc2 : eb.allocateEntity with
              | none => simp [halloc2] at hc
              | some q =>
                  obtain ⟨h', ea⟩ := q
                  simp [halloc2] at hc

theorem isValid_true_spec {e : ECS} {h : EntityID}
    (hv : e.isValid h = some true) :
    h.sceneId = e.sceneId ∧
      e.entities[h.index]? = some { alive := true, generation := h.generation } := by
  unfold ECS.isValid at hv
  split at hv
  · cases hget : e.entities[h.index]? with
    | none => rw [hget] at hv; cases hv
    | some r =>
        rw [hget] at hv
        refine ⟨by assumption, ?_⟩
        have : r = { alive := true, generation := h.generation } := by
          have := congrArg (fun o => o.getD false) hv
          simpa using this
        rw [← this]
  · cases hv

theorem destroyEntity_spec {e : ECS} {h : EntityID} {e₁ : ECS}
    (hd : e.destroyEntity h = some e₁) :
    (e.isValid h = some false ∧ e₁ = e) ∨
      (e.isValid h = some true ∧
        e.entities[h.index]? = some { alive := true, generation := h.generation } ∧
        e₁ = { e with
          entityCount := e.entityCount - 1,
          components := deleteIndexAll h.index e.components,
          entities := e.entities.set h.index
            { alive := false, generation := h.generation } }) := by
  unfold ECS.destroyEntity at hd
  cases hv : e.isValid h with
  | none => rw [hv] at hd; cases hd
  | some b =>
      cases b with
      | false =>
          simp only [hv, Option.some.injEq] at hd
          exact Or.inl ⟨rfl, hd.symm⟩
      | true =>
          obtain ⟨hscene, hget⟩ := isValid_true_spec hv
          simp only [hv, hget, Option.some.injEq] at hd
          exact Or.inr ⟨rfl, hget, hd.symm⟩

theorem addComponent_spec {e : ECS} {cid : Nat} {h : EntityID} {v : Nat} {e₁ : ECS}
    (ha : e.addComponent cid h v = some e₁) :
    (e.isValid h = some false ∧ e₁ = e) ∨
      (e.isValid h = some true ∧ ∃ arr, mapGet cid e.components = some arr ∧
        e₁ = { e with
          components := mapUpdate cid (fun a => a.set h.index (some v)) e.components }) := by
  unfold ECS.addComponent at ha
  split at ha
  · cases ha
  · exact Or.inl ⟨by assumption, (Option.some.inj ha).symm⟩
  · rename_i hv
    split at ha
    · rename_i arr hm
      exact Or.inr ⟨hv, arr, hm, (Option.some.inj ha).symm⟩
    · cases ha

theorem removeComponent_spec {e : ECS} {cid : Nat} {h : EntityID} {e₁ : ECS}
    (ha : e.removeComponent cid h = some e₁) :
    (e.isValid h = some false ∧ e₁ = e) ∨
      (e.isValid h = some true ∧ ∃ arr, mapGet cid e.components = some arr ∧
        e₁ = { e with
          components := mapUpdate cid (fun a => a.set h.index (none : Slot)) e.components }) := by
  unfold ECS.removeComponent at ha
  split at ha
  · cases ha
  · exact Or.inl ⟨by assumption, (Option.some.inj ha).symm⟩
  · rename_i hv
    split at ha
    · rename_i arr hm
      exact Or.inr ⟨hv, arr, hm, (Option.some.inj ha).symm⟩
    · cases ha

theorem addComponent_eq_of_valid {e : ECS} {cid : Nat} {h : EntityID} {v : Nat}
    {arr : List Slot} (hv : e.isValid h = some true)
    (hm : mapGet cid e.components = some arr) :
    e.addComponent cid h v =
      some { e with
        components := mapUpdate cid (fun a => a.set h.index (some v)) e.components } := by
  simp only [ECS.addComponent, hv, hm]

theorem removeComponent_eq_of_valid {e : ECS} {cid : Nat} {h : EntityID}
    {arr : List Slot} (hv : e.isValid h = some true)
    (hm : mapGet cid e.components = some arr) :
    e.removeComponent cid h =
      some { e with
        components := mapUpdate cid (fun a => a.set h.index (none : Slot)) e.components } := by
  simp only [ECS.removeComponent, hv, hm]

theorem getComponent_eq_of_valid {e : ECS} {cid : Nat} {h : EntityID}
    {arr : List Slot} (hv : e.isValid h = some true)
    (hm : mapGet cid e.components = some arr) :
    e.getComponent cid h = some (arr.getD h.index none) := by
  simp only [ECS.getComponent, hv, hm]

theorem hasComponent_eq_of_valid {e : ECS} {cid : Nat} {h : EntityID}
    {arr : List Slot} (hv : e.isValid h = some true)
    (hm : mapGet cid e.components = some arr) :
    e.hasComponent cid h = some (arr.getD h.index none).isSome := by
  simp only [ECS.hasComponent, hv, hm]

/-! Preservation of the structural invariant. -/

theorem Inv_new (sid c : Nat) : Inv (ECS.new sid c) := by
  refine ⟨by simp [ECS.new], ?_, ?_⟩
  · intro p hp
    simp [ECS.new] at hp
  · simp [ECS.new, List.countP_replicate]

theorem Inv_register {e : ECS} (cid : Nat) (hI : Inv e) : Inv (e.register cid) := by
  obtain ⟨h1, h2, h3⟩ := hI
  refine ⟨h1, ?_, h3⟩
  intro p hp
  rcases mem_mapInsert hp with hp | hp
  · subst hp
    simp [ECS.register]
  · exact h2 p hp

theorem Inv_setGrowFn {e : ECS} (g : Option (Nat → Nat)) (hI : Inv e) :
    Inv (e.setGrowFn g) := hI

theorem Inv_growTo {e : ECS} {n : Nat} {e₁ : ECS} (hI : Inv e)
    (hg : e.growCapacityToSize n = some e₁) : Inv e₁ := by
  obtain ⟨h1, h2, h3⟩ := hI
  obtain ⟨hlt, he⟩ := growCapacityToSize_spec hg
  subst he
  refine ⟨vecResize_length _ _ _, ?_, ?_⟩
  · intro p hp
    simp only [List.mem_map] at hp
    obtain ⟨q, hq, hpe⟩ := hp
    subst hpe
    exact arrayResize_length (by rw [h2 q hq]; omega)
  · show e.entityCount = List.countP _ (vecResize e.entities n _)
    rw [h3]
    unfold vecResize
    rw [if_neg (by omega), List.countP_append, List.countP_replicate]
    simp

theorem getElem?_lt_length {α : Type} {l : List α} {i : Nat} {a : α}
    (hget : l[i]? = some a) : i < l.length := by
  by_contra hge
  rw [List.getElem?_eq_none (by omega)] at hget
  cases hget

theorem Inv_createEntity {e : ECS} {res : Option EntityID} {e₁ : ECS} (hI : Inv e)
    (hc : e.createEntity = some (res, e₁)) : Inv e₁ := by
  cases res with
  | none =>
      obtain ⟨he, -, -⟩ := createEntity_none_spec hc
      subst he
      exact hI
  | some h =>
      obtain ⟨eb, hb, ea, halloc, he⟩ := createEntity_some_spec hc
      have hIb : Inv eb := by
        rcases hb with hb | ⟨-, hb⟩
        · subst hb; exact hI
        · obtain ⟨g, -, hg⟩ := growCapacity_spec hb
          exact Inv_growTo hI hg
      obtain ⟨hscene, rr, hget, hdead, hgen, hmin, hea⟩ := allocateEntity_spec halloc
      subst he
      subst hea
      obtain ⟨h1, h2, h3⟩ := hIb
      have hlen : h.index < eb.entities.length := getElem?_lt_length hget
      have hgetE : eb.entities[h.index] = rr :=
        Option.some.inj ((List.getElem?_eq_getElem hlen).symm.trans hget)
      have hcount := List.countP_set (fun r => r.alive) eb.entities h.index
        { alive := true, generation := h.generation } hlen
      rw [hgetE, hdead] at hcount
      refine ⟨by simpa using h1, h2, ?_⟩
      show eb.entityCount + 1 = List.countP (fun r => r.alive)
        (eb.entities.set h.index { alive := true, generation := h.generation })
      rw [hcount, h3]
      simp

theorem Inv_destroyEntity {e : ECS} {h : EntityID} {e₁ : ECS} (hI : Inv e)
    (hd : e.destroyEntity h = some e₁) : Inv e₁ := by
  rcases destroyEntity_spec hd with ⟨-, he⟩ | ⟨hv, hget, he⟩
  · subst he
    exact hI
  · subst he
    obtain ⟨h1, h2, h3⟩ := hI
    have hlen : h.index < e.entities.length := getElem?_lt_length hget
    have hgetE : e.entities[h.index] = { alive := true, generation := h.generation } :=
      Option.some.inj ((List.getElem?_eq_getElem hlen).symm.trans hget)
    have hpos : 0 < List.countP (fun r => r.alive) e.entities := by
      rw [List.countP_pos_iff]
      exact ⟨_, List.getElem?_mem hget, rfl⟩
    have hcount := List.countP_set (fun r => r.alive) e.entities h.index
      { alive := false, generation := h.generation } hlen
    rw [hgetE] at hcount
    refine ⟨by simpa using h1, ?_, ?_⟩
    · intro p hp
      simp only [deleteIndexAll, List.mem_map] at hp
      obtain ⟨q, hq, hpe⟩ := hp
      subst hpe
      simpa using h2 q hq
    · show e.entityCount - 1 = List.countP (fun r => r.alive)
        (e.entities.set h.index { alive := false, generation := h.generation })
      rw [hcount, h3]
      simp

theorem Inv_addComponent {e : ECS} {cid : Nat} {h : EntityID} {v : Nat} {e₁ : ECS}
    (hI : Inv e) (ha : e.addComponent cid h v = some e₁) : Inv e₁ := by
  rcases addComponent_spec ha with ⟨-, he⟩ | ⟨-, arr, hm, he⟩
  · subst he; exact hI
  · subst he
    obtain ⟨h1, h2, h3⟩ := hI
    refine ⟨h1, ?_, h3⟩
    intro p hp
    rcases mem_mapUpdate hp with hp | ⟨q, hq, hpe⟩
    · exact h2 p hp
    · subst hpe
      simpa using h2 q hq

theorem Inv_removeComponent {e : ECS} {cid : Nat} {h : EntityID} {e₁ : ECS}
    (hI : Inv e) (ha : e.removeComponent cid h = some e₁) : Inv e₁ := by
  rcases removeComponent_spec ha with ⟨-, he⟩ | ⟨-, arr, hm, he⟩
  · subst he; exact hI
  · subst he
    obtain ⟨h1, h2, h3⟩ := hI
    refine ⟨h1, ?_, h3⟩
    intro p hp
    rcases mem_mapUpdate hp with hp | ⟨q, hq, hpe⟩
    · exact h2 p hp
    · subst hpe
      simpa using h2 q hq

theorem Inv_applyOp {e : ECS} {op : Op} {e₁ : ECS} (hI : Inv e)
    (hs : e.applyOp op = some e₁) : Inv e₁ := by
  cases op with
  | create =>
      unfold ECS.applyOp at hs
      cases hc : e.createEntity with
      | none => rw [hc] at hs; cases hs
      | some q =>
          rw [hc] at hs
          cases hs
          exact Inv_createEntity hI hc
  | destroy h => exact Inv_destroyEntity hI hs
  | addComp cid h v => exact Inv_addComponent hI hs
  | removeComp cid h => exact Inv_removeComponent hI hs
  | registerComp cid =>
      cases hs
      exact Inv_register cid hI
  | growTo n => exact Inv_growTo hI hs
  | grow =>
      obtain ⟨g, -, hg⟩ := growCapacity_spec hs
      exact Inv_growTo hI hg
  | setGrow g =>
      cases hs
      exact Inv_setGrowFn g hI

theorem Inv_run {e : ECS} {ops : List Op} {e₁ : ECS} (hI : Inv e)
    (hr : e.run ops = some e₁) : Inv e₁ := by
  induction ops generalizing e with
  | nil =>
      cases hr
      exact hI
  | cons op ops ih =>
      unfold ECS.run at hr
      cases hs : e.applyOp op with
      | none => rw [hs] at hr; cases hr
      | some e' =>
          rw [hs] at hr
          exact ih (Inv_applyOp hI hs) hr

/-! Evolution of the entity table across operations. -/

/-- Evolution relation between store states: the scene id is stable, entity
records never disappear, generations never decrease, and a record that goes
from dead to alive strictly increases its generation. -/
def EntEvol (e e₁ : ECS) : Prop :=
  e₁.sceneId = e.sceneId ∧
  ∀ (i : Nat) (r : Entity), e.entities[i]? = some r →
    ∃ r₁ : Entity, e₁.entities[i]? = some r₁ ∧
      r.generation ≤ r₁.generation ∧
      (r.alive = false → r₁.alive = true → r.generation < r₁.generation)

theorem EntEvol_refl (e : ECS) : EntEvol e e := by
  refine ⟨rfl, ?_⟩
  intro i r hget
  exact ⟨r, hget, le_refl _, fun hd ha => by simp [hd] at ha⟩

theorem EntEvol_of_entities_eq {e e₁ : ECS} (hs : e₁.sceneId = e.sceneId)
    (he : e₁.entities = e.entities) : EntEvol e e₁ := by
  refine ⟨hs, ?_⟩
  intro i r hget
  rw [he]
  exact ⟨r, hget, le_refl _, fun hd ha => by simp [hd] at ha⟩

theorem EntEvol_trans {e e₁ e₂ : ECS} (h01 : EntEvol e e₁) (h12 : EntEvol e₁ e₂) :
    EntEvol e e₂ := by
  obtain ⟨hs01, hr01⟩ := h01
  obtain ⟨hs12, hr12⟩ := h12
  refine ⟨hs12.trans hs01, ?_⟩
  intro i r hget
  obtain ⟨r₁, hget₁, hle₁, hlt₁⟩ := hr01 i r hget
  obtain ⟨r₂, hget₂, hle₂, hlt₂⟩ := hr12 i r₁ hget₁
  refine ⟨r₂, hget₂, hle₁.trans hle₂, ?_⟩
  intro hd ha
  cases hb : r₁.alive with
  | true => exact lt_of_lt_of_le (hlt₁ hd hb) hle₂
  | false => exact lt_of_le_of_lt hle₁ (hlt₂ hb ha)

theorem EntEvol_set_alive {e : ECS} {i : Nat} {r : Entity}
    (hget : e.entities[i]? = some r) (hdead : r.alive = false) (g : Nat)
    (hg : r.generation < g) :
    EntEvol e
      { e with entities := e.entities.set i { alive := true, generation := g } } := by
  refine ⟨rfl, ?_⟩
  intro j s hs
  by_cases hij : i = j
  · subst hij
    have hlen : i < e.entities.length := getElem?_lt_length hs
    have hsr : s = r := Option.some.inj (hs.symm.trans hget)
    subst hsr
    refine ⟨{ alive := true, generation := g }, ?_, by simpa using le_of_lt hg, ?_⟩
    · simpa using List.getElem?_set_self hlen
    · intro hd ha
      simpa using hg
  · refine ⟨s, ?_, le_refl _, fun hd ha => by simp [hd] at ha⟩
    show (e.entities.set i _)[j]? = some s
    rw [List.getElem?_set_ne hij]
    exact hs

theorem EntEvol_growTo {e : ECS} {n : Nat} {e₁ : ECS} (hI : Inv e)
    (hg : e.growCapacityToSize n = some e₁) : EntEvol e e₁ := by
  obtain ⟨hlt, he⟩ := growCapacityToSize_spec hg
  subst he
  refine ⟨rfl, ?_⟩
  intro i r hget
  have hlen : i < e.entities.length := getElem?_lt_length hget
  have hin : i < n := by
    have := hI.1
    omega
  refine ⟨r, ?_, le_refl _, fun hd ha => by simp [hd] at ha⟩
  show (vecResize e.entities n { alive := false, generation := 0 })[i]? = some r
  rw [vecResize_get_lt hlen hin]
  exact hget

theorem EntEvol_allocate {e : ECS} {h : EntityID} {e₁ : ECS}
    (halloc : e.allocateEntity = some (h, e₁)) : EntEvol e e₁ := by
  obtain ⟨hscene, r, hget, hdead, hgen, hmin, he⟩ := allocateEntity_spec halloc
  subst he
  exact EntEvol_set_alive hget hdead h.generation (by omega)

theorem EntEvol_createEntity {e : ECS} {res : Option EntityID} {e₁ : ECS} (hI : Inv e)
    (hc : e.createEntity = some (res, e₁)) : EntEvol e e₁ := by
  cases res with
  | none =>
      obtain ⟨he, -, -⟩ := createEntity_none_spec hc
      subst he
      exact EntEvol_refl _
  | some h =>
      obtain ⟨eb, hb, ea, halloc, he⟩ := createEntity_some_spec hc
      subst he
      have hev : EntEvol e eb := by
        rcases hb with hb | ⟨-, hb⟩
        · subst hb
          exact EntEvol_refl _
        · obtain ⟨g, -, hgg⟩ := growCapacity_spec hb
          exact EntEvol_growTo hI hgg
      have hev2 : EntEvol eb ea := EntEvol_allocate halloc
      exact EntEvol_trans hev (EntEvol_trans hev2 (EntEvol_of_entities_eq rfl rfl))

theorem EntEvol_destroyEntity {e : ECS} {h : EntityID} {e₁ : ECS}
    (hd : e.destroyEntity h = some e₁) : EntEvol e e₁ := by
  rcases destroyEntity_spec hd with ⟨-, he⟩ | ⟨hv, hget, he⟩
  · subst he
    exact EntEvol_refl _
  · subst he
    refine ⟨rfl, ?_⟩
    intro j s hs
    by_cases hij : h.index = j
    · subst hij
      have hlen : h.index < e.entities.length := getElem?_lt_length hs
      have hsr : s = { alive := true, generation := h.generation } :=
        Option.some.inj (hs.symm.trans hget)
      subst hsr
      refine ⟨{ alive := false, generation := h.generation }, ?_, by simp, ?_⟩
      · simpa using List.getElem?_set_self hlen
      · intro hd' ha'
        cases hd'
    · refine ⟨s, ?_, le_refl _, fun hd' ha' => by simp [hd'] at ha'⟩
      show (e.entities.set h.index _)[j]? = some s
      rw [List.getElem?_set_ne hij]
      exact hs

theorem EntEvol_applyOp {e : ECS} {op : Op} {e₁ : ECS} (hI : Inv e)
    (hs : e.applyOp op = some e₁) : EntEvol e e₁ := by
  cases op with
  | create =>
      unfold ECS.applyOp at hs
      cases hc : e.createEntity with
      | none => rw [hc] at hs; cases hs
      | some q =>
          rw [hc] at hs
          cases hs
          exact EntEvol_createEntity hI hc
  | destroy h => exact EntEvol_destroyEntity hs
  | addComp cid h v =>
      rcases addComponent_spec hs with ⟨-, he⟩ | ⟨-, arr, hm, he⟩ <;> subst he
      · exact EntEvol_refl _
      · exact EntEvol_of_entities_eq rfl rfl
  | removeComp cid h =>
      rcases removeComponent_spec hs with ⟨-, he⟩ | ⟨-, arr, hm, he⟩ <;> subst he
      · exact EntEvol_refl _
      · exact EntEvol_of_entities_eq rfl rfl
  | registerComp cid =>
      cases hs
      exact EntEvol_of_entities_eq rfl rfl
  | growTo n => exact EntEvol_growTo hI hs
  | grow =>
      obtain ⟨g, -, hgg⟩ := growCapacity_spec hs
      exact EntEvol_growTo hI hgg
  | setGrow g =>
      cases hs
      exact EntEvol_of_entities_eq rfl rfl

theorem EntEvol_run {e : ECS} {ops : List Op} {e₁ : ECS} (hI : Inv e)
    (hr : e.run ops = some e₁) : EntEvol e e₁ := by
  induction ops generalizing e with
  | nil =>
      cases hr
      exact EntEvol_refl _
  | cons op ops ih =>
      unfold ECS.run at hr
      cases hs : e.applyOp op with
      | none => rw [hs] at hr; cases hr
      | some e₂ =>
          rw [hs] at hr
          exact EntEvol_trans (EntEvol_applyOp hI hs) (ih (Inv_applyOp hI hs) hr)

/-! Staleness of destroyed handles. -/

/-- Record at the handle's index that has reached the handle's generation:
true of any handle the store has issued for that index. -/
def Reached (h : EntityID) (e : ECS) : Prop :=
  h.sceneId = e.sceneId ∧
  ∃ r : Entity, e.entities[h.index]? = some r ∧ h.generation ≤ r.generation

/-- Permanently invalid handle: minted by another store, or its index's
record has moved past it (dead at a generation at least the handle's, or
alive at a strictly larger one). -/
def StaleFor (h : EntityID) (e : ECS) : Prop :=
  h.sceneId ≠ e.sceneId ∨
  ∃ r : Entity, e.entities[h.index]? = some r ∧
    (h.generation < r.generation ∨ (r.alive = false ∧ h.generation ≤ r.generation))

theorem Reached_evol {h : EntityID} {e e₁ : ECS} (hR : Reached h e)
    (hev : EntEvol e e₁) : Reached h e₁ := by
  obtain ⟨hs, r, hget, hle⟩ := hR
  obtain ⟨hs', hr⟩ := hev
  obtain ⟨r₁, hget₁, hle₁, -⟩ := hr h.index r hget
  exact ⟨by rw [hs', hs], r₁, hget₁, hle.trans hle₁⟩

theorem StaleFor_evol {h : EntityID} {e e₁ : ECS} (hS : StaleFor h e)
    (hev : EntEvol e e₁) : StaleFor h e₁ := by
  obtain ⟨hs', hr⟩ := hev
  rcases hS with hS | ⟨r, hget, hS⟩
  · exact Or.inl (by rw [hs']; exact hS)
  · obtain ⟨r₁, hget₁, hle₁, hlt₁⟩ := hr h.index r hget
    rcases hS with hS | ⟨hdead, hle⟩
    · exact Or.inr ⟨r₁, hget₁, Or.inl (lt_of_lt_of_le hS hle₁)⟩
    · cases hb : r₁.alive with
      | false => exact Or.inr ⟨r₁, hget₁, Or.inr ⟨hb, hle.trans hle₁⟩⟩
      | true => exact Or.inr ⟨r₁, hget₁, Or.inl (lt_of_le_of_lt hle (hlt₁ hdead hb))⟩

theorem StaleFor_isValid {h : EntityID} {e : ECS} (hS : StaleFor h e) :
    e.isValid h = some false := by
  unfold ECS.isValid
  rcases hS with hS | ⟨r, hget, hS⟩
  · rw [if_neg hS]
  · by_cases hsc : h.sceneId = e.sceneId
    · rw [if_pos hsc]
      show (match e.entities[h.index]? with
        | some r => some (decide (r = { alive := true, generation := h.generation }))
        | none => none) = some false
      rw [hget]
      have hne : r ≠ { alive := true, generation := h.generation } := by
        intro hr
        subst hr
        rcases hS with hS | ⟨hdead, -⟩
        · simp at hS
        · cases hdead
      simp [hne]
    · rw [if_neg hsc]

theorem isValid_false_record {e : ECS} {h : EntityID} {r : Entity}
    (hv : e.isValid h = some false) (hsc : h.sceneId = e.sceneId)
    (hget : e.entities[h.index]? = some r) :
    r ≠ { alive := true, generation := h.generation } := by
  intro hr
  unfold ECS.isValid at hv
  rw [if_pos hsc, hget, hr] at hv
  simp at hv

theorem destroy_stale {e : ECS} {h : EntityID} {e₁ : ECS} (hR : Reached h e)
    (hd : e.destroyEntity h = some e₁) : StaleFor h e₁ := by
  rcases destroyEntity_spec hd with ⟨hv, he⟩ | ⟨hv, hget, he⟩
  · subst he
    obtain ⟨hs, r, hget, hle⟩ := hR
    have hne : r ≠ { alive := true, generation := h.generation } :=
      isValid_false_record hv hs hget
    refine Or.inr ⟨r, hget, ?_⟩
    rcases Nat.lt_or_ge h.generation r.generation with hlt | hge
    · exact Or.inl hlt
    · have hgeq : h.generation = r.generation := by omega
      cases hb : r.alive with
      | false => exact Or.inr ⟨rfl, hle⟩
      | true =>
          exact absurd (by cases r with | mk al gen => simp_all) hne
  · subst he
    have hlen : h.index < e.entities.length := getElem?_lt_length hget
    refine Or.inr ⟨{ alive := false, generation := h.generation }, ?_,
      Or.inr ⟨rfl, le_refl _⟩⟩
    simpa using List.getElem?_set_self hlen

theorem destroy_isValid_false {e : ECS} {h : EntityID} {e₁ : ECS}
    (hd : e.destroyEntity h = some e₁) : e₁.isValid h = some false := by
  rcases destroyEntity_spec hd with ⟨hv, he⟩ | ⟨hv, hget, he⟩
  · subst he
    exact hv
  · subst he
    have hlen : h.index < e.entities.length := getElem?_lt_length hget
    unfold ECS.isValid
    rw [if_pos (isValid_true_spec hv).1]
    show (match (e.entities.set h.index
        { alive := false, generation := h.generation })[h.index]? with
      | some r => some (decide (r = { alive := true, generation := h.generation }))
      | none => none) = some false
    rw [List.getElem?_set_self (by simpa using hlen)]
    simp

theorem create_valid {e : ECS} {h : EntityID} {e₁ : ECS}
    (hc : e.createEntity = some (some h, e₁)) :
    e₁.isValid h = some true ∧ Reached h e₁ := by
  obtain ⟨eb, hb, ea, halloc, he⟩ := createEntity_some_spec hc
  subst he
  obtain ⟨hscene, r, hget, hdead, hgen, hmin, hea⟩ := allocateEntity_spec halloc
  subst hea
  have hlen : h.index < eb.entities.length := getElem?_lt_length hget
  have hget' : (eb.entities.set h.index
      { alive := true, generation := h.generation })[h.index]? =
      some { alive := true, generation := h.generation } := by
    simpa using List.getElem?_set_self hlen
  constructor
  · unfold ECS.isValid
    rw [if_pos hscene]
    show (match (eb.entities.set h.index
        { alive := true, generation := h.generation })[h.index]? with
      | some r => some (decide (r = { alive := true, generation := h.generation }))
      | none => none) = some true
    rw [hget']
    simp
  · exact ⟨hscene, { alive := true, generation := h.generation }, hget', le_refl _⟩

/-! Generation bump performed by entity creation. -/

theorem create_bump {e : ECS} {h : EntityID} {e₁ : ECS} (hI : Inv e)
    (hc : e.createEntity = some (some h, e₁)) :
    e₁.entities[h.index]? = some { alive := true, generation := h.generation } ∧
    (∀ r : Entity, e.entities[h.index]? = some r → h.generation = r.generation + 1) ∧
    (e.entities[h.index]? = none → h.generation = 1) ∧
    1 ≤ h.generation ∧
    (∀ (j : Nat) (r : Entity), j ≠ h.index →
      e.entities[j]? = some r → e₁.entities[j]? = some r) := by
  obtain ⟨eb, hb, ea, halloc, he⟩ := createEntity_some_spec hc
  subst he
  obtain ⟨hscene, rb, hget, hdead, hgen, hmin, hea⟩ := allocateEntity_spec halloc
  subst hea
  have hlen : h.index < eb.entities.length := getElem?_lt_length hget
  have hpart1 : (eb.entities.set h.index
      { alive := true, generation := h.generation })[h.index]? =
      some { alive := true, generation := h.generation } := by
    simpa using List.getElem?_set_self hlen
  rcases hb with hb | ⟨halloc0, hb⟩
  · subst hb
    refine ⟨hpart1, ?_, ?_, by omega, ?_⟩
    · intro r hr
      have hrrb : r = rb := Option.some.inj (hr.symm.trans hget)
      subst hrrb
      exact hgen
    · intro hnone
      rw [hnone] at hget
      cases hget
    · intro j r hj hr
      exact (List.getElem?_set_ne (fun hh => hj hh.symm)).trans hr
  · obtain ⟨g, -, hgg⟩ := growCapacity_spec hb
    obtain ⟨hlt, heb⟩ := growCapacityToSize_spec hgg
    have hall : ∀ r ∈ e.entities, r.alive = true := allocateEntity_none.mp halloc0
    have hclen : e.entities.length = e.capacity := hI.1
    have hidxge : e.entities.length ≤ h.index := by
      by_contra hidxlt
      push_neg at hidxlt
      have hgeteb : eb.entities[h.index]? = e.entities[h.index]? := by
        rw [heb]
        exact vecResize_get_lt hidxlt (by omega)
      rw [hgeteb] at hget
      have := hall rb (List.getElem?_mem hget)
      rw [hdead] at this
      cases this
    have hnone : e.entities[h.index]? = none := List.getElem?_eq_none hidxge
    have hrb0 : rb = { alive := false, generation := 0 } := by
      have hn : h.index < g e.capacity := by
        have hleneb : eb.entities.length = g e.capacity := by
          rw [heb]
          exact vecResize_length _ _ _
        omega
      have : eb.entities[h.index]? = some { alive := false, generation := 0 } := by
        rw [heb]
        exact vecResize_get_new (by omega) hn
      exact Option.some.inj (hget.symm.trans this)
    refine ⟨hpart1, ?_, ?_, by omega, ?_⟩
    · intro r hr
      rw [hnone] at hr
      cases hr
    · intro _
      rw [hrb0] at hgen
      exact hgen
    · intro j r hj hr
      have hjlt : j < e.entities.length := getElem?_lt_length hr
      have hgeteb : eb.entities[j]? = some r := by
        rw [heb]
        rw [vecResize_get_lt hjlt (by omega)]
        exact hr
      exact (List.getElem?_set_ne (fun hh => hj hh.symm)).trans hgeteb

theorem realloc_strict {e : ECS} {h h₁ : EntityID} {e₁ : ECS} (hI : Inv e)
    (hR : Reached h e) (hc : e.createEntity = some (some h₁, e₁))
    (hidx : h₁.index = h.index) : h.generation < h₁.generation := by
  obtain ⟨eb, hb, ea, halloc, he⟩ := createEntity_some_spec hc
  have hev : EntEvol e eb := by
    rcases hb with hb | ⟨-, hb⟩
    · subst hb
      exact EntEvol_refl _
    · obtain ⟨g, -, hgg⟩ := growCapacity_spec hb
      exact EntEvol_growTo hI hgg
  have hRb : Reached h eb := Reached_evol hR hev
  obtain ⟨-, rb, hget, hdead, hgen, -, -⟩ := allocateEntity_spec halloc
  obtain ⟨-, r, hgetR, hle⟩ := hRb
  rw [hidx] at hget
  have : r = rb := Option.some.inj (hgetR.symm.trans hget)
  subst this
  omega

/-! Claim C1. -/

/-- C1: for every handle returned by `create_entity`, `is_valid` is true
immediately after creation, becomes false immediately after
`destroy_entity(h)`, and remains false after every subsequent panic-free
sequence of store operations, even if the handle's index is later
reallocated to a new entity. -/
theorem C1_isValid_lifecycle (e e₁ eMid e₂ e₃ : ECS) (h : EntityID)
    (ops₁ ops₂ : List Op) (hI : Inv e)
    (hc : e.createEntity = some (some h, e₁))
    (h1 : e₁.run ops₁ = some eMid)
    (hd : eMid.destroyEntity h = some e₂)
    (h2 : e₂.run ops₂ = some e₃) :
    e₁.isValid h = some true ∧ e₂.isValid h = some false ∧
      e₃.isValid h = some false := by
  obtain ⟨hval, hreach⟩ := create_valid hc
  have hI₁ : Inv e₁ := Inv_createEntity hI hc
  have hIMid : Inv eMid := Inv_run hI₁ h1
  have hreachMid : Reached h eMid := Reached_evol hreach (EntEvol_run hI₁ h1)
  have hI₂ : Inv e₂ := Inv_destroyEntity hIMid hd
  have hstale₂ : StaleFor h e₂ := destroy_stale hreachMid hd
  have hstale₃ : StaleFor h e₃ := StaleFor_evol hstale₂ (EntEvol_run hI₂ h2)
  exact ⟨hval, destroy_isValid_false hd, StaleFor_isValid hstale₃⟩

/-- Witness for C1: a capacity-2 store, create, destroy, then a create that
reallocates index 0 at generation 2; the original handle stays invalid. -/
theorem C1_witness :
    ECS.isValid ⟨0, 2, 1, none, [⟨true, 1⟩, ⟨false, 0⟩], []⟩ ⟨0, 0, 1⟩ = some true ∧
    ECS.isValid ⟨0, 2, 0, none, [⟨false, 1⟩, ⟨false, 0⟩], []⟩ ⟨0, 0, 1⟩ = some false ∧
    ECS.isValid ⟨0, 2, 1, none, [⟨true, 2⟩, ⟨false, 0⟩], []⟩ ⟨0, 0, 1⟩ = some false :=
  C1_isValid_lifecycle (ECS.new 0 2)
    ⟨0, 2, 1, none, [⟨true, 1⟩, ⟨false, 0⟩], []⟩
    ⟨0, 2, 1, none, [⟨true, 1⟩, ⟨false, 0⟩], []⟩
    ⟨0, 2, 0, none, [⟨false, 1⟩, ⟨false, 0⟩], []⟩
    ⟨0, 2, 1, none, [⟨true, 2⟩, ⟨false, 0⟩], []⟩
    ⟨0, 0, 1⟩ [] [Op.create] (Inv_new 0 2) rfl rfl rfl rfl

/-! Claim C2. -/

/-- C2: per-index generations never decrease across any panic-free run; a
successful creation bumps exactly the allocated index's generation by one
(including the very first allocation, so every issued handle carries a
generation of at least 1 and a freshly zeroed record of generation 0 never
validates an issued handle); `destroy_entity` leaves every generation
unchanged; and reallocating an index yields a generation strictly greater
than that of every previously issued handle for that index. -/
theorem C2_generation_discipline :
    (∀ (e : ECS) (ops : List Op) (e₁ : ECS) (i : Nat) (r r₁ : Entity),
      Inv e → e.run ops = some e₁ → e.entities[i]? = some r →
      e₁.entities[i]? = some r₁ → r.generation ≤ r₁.generation) ∧
    (∀ (e : ECS) (h : EntityID) (e₁ : ECS), Inv e →
      e.createEntity = some (some h, e₁) →
      e₁.entities[h.index]? = some { alive := true, generation := h.generation } ∧
      (∀ r : Entity, e.entities[h.index]? = some r → h.generation = r.generation + 1) ∧
      (e.entities[h.index]? = none → h.generation = 1) ∧
      1 ≤ h.generation ∧
      (∀ (j : Nat) (r : Entity), j ≠ h.index →
        e.entities[j]? = some r → e₁.entities[j]? = some r)) ∧
    (∀ (e : ECS) (h : EntityID) (r : Entity), 1 ≤ h.generation →
      e.entities[h.index]? = some r → r.generation = 0 →
      e.isValid h ≠ some true) ∧
    (∀ (e : ECS) (h : EntityID) (e₁ : ECS), e.destroyEntity h = some e₁ →
      ∀ i : Nat, (e₁.entities[i]?).map Entity.generation =
        (e.entities[i]?).map Entity.generation) ∧
    (∀ (e : ECS) (h h₁ : EntityID) (e₁ : ECS), Inv e → Reached h e →
      e.createEntity = some (some h₁, e₁) → h₁.index = h.index →
      h.generation < h₁.generation) := by
  refine ⟨?_, ?_, ?_, ?_, ?_⟩
  · intro e ops e₁ i r r₁ hI hr hget hget₁
    obtain ⟨-, hev⟩ := EntEvol_run hI hr
    obtain ⟨r₂, hget₂, hle, -⟩ := hev i r hget
    have : r₂ = r₁ := Option.some.inj (hget₂.symm.trans hget₁)
    subst this
    exact hle
  · intro e h e₁ hI hc
    exact create_bump hI hc
  · intro e h r hgen hget hr0 hv
    obtain ⟨-, hget₂⟩ := isValid_true_spec hv
    have : r = { alive := true, generation := h.generation } :=
      Option.some.inj (hget.symm.trans hget₂)
    rw [this] at hr0
    simp only at hr0
    omega
  · intro e h e₁ hd i
    rcases destroyEntity_spec hd with ⟨-, he⟩ | ⟨hv, hget, he⟩
    · subst he
      rfl
    · subst he
      by_cases hij : h.index = i
      · subst hij
        have hlen : h.index < e.entities.length := getElem?_lt_length hget
        have hset : (e.entities.set h.index
            { alive := false, generation := h.generation })[h.index]? =
            some { alive := false, generation := h.generation } :=
          List.getElem?_set_self hlen
        show ((e.entities.set h.index
            { alive := false, generation := h.generation })[h.index]?).map
              Entity.generation = (e.entities[h.index]?).map Entity.generation
        rw [hset, hget]
        rfl
      · exact congrArg (Option.map Entity.generation) (List.getElem?_set_ne hij)
  · intro e h h₁ e₁ hI hR hc hidx
    exact realloc_strict hI hR hc hidx

/-- Witness for C2: the generation at index 0 does not decrease over the
run that allocates it. -/
theorem C2_witness :
    Entity.generation { alive := false, generation := 0 } ≤
      Entity.generation { alive := true, generation := 1 } :=
  C2_generation_discipline.1 (ECS.new 0 1) [Op.create]
    ⟨0, 1, 1, none, [⟨true, 1⟩], []⟩ 0
    { alive := false, generation := 0 } { alive := true, generation := 1 }
    (Inv_new 0 1) rfl rfl rfl

/-! Claim C3. -/

/-- C3: on a valid handle of a store where the component type is
registered, `add_component` makes `has_component` true and `get_component`
return the stored value; a subsequent `remove_component` makes the
presence check false and the read absent. -/
theorem C3_component_roundtrip (e : ECS) (cid : Nat) (h : EntityID) (v : Nat)
    (arr : List Slot) (hI : Inv e)
    (hreg : mapGet cid e.components = some arr)
    (hval : e.isValid h = some true) :
    ∃ e₁, e.addComponent cid h v = some e₁ ∧
      e₁.hasComponent cid h = some true ∧
      e₁.getComponent cid h = some (some v) ∧
      ∃ e₂, e₁.removeComponent cid h = some e₂ ∧
        e₂.hasComponent cid h = some false ∧
        e₂.getComponent cid h = some (none : Option Nat) := by
  obtain ⟨hscene, hget⟩ := isValid_true_spec hval
  have harrlen : arr.length = e.capacity := hI.2.1 _ (mapGet_mem hreg)
  have hidx : h.index < arr.length := by
    have h1 := getElem?_lt_length hget
    have h2 := hI.1
    omega
  have hm₁ : mapGet cid (mapUpdate cid (fun a => a.set h.index (some v)) e.components) =
      some (arr.set h.index (some v)) := by
    rw [mapGet_mapUpdate_self, hreg]
    rfl
  have hval₁ : ECS.isValid
      { e with components := mapUpdate cid (fun a => a.set h.index (some v)) e.components }
      h = some true := hval
  have hgd₁ : (arr.set h.index (some v)).getD h.index none = some v := by
    rw [List.getD_eq_getElem?_getD, List.getElem?_set_self hidx]
    rfl
  have hhas₁ : ECS.hasComponent
      { e with components := mapUpdate cid (fun a => a.set h.index (some v)) e.components }
      cid h = some true := by
    rw [hasComponent_eq_of_valid hval₁ hm₁, hgd₁]
    rfl
  have hgot₁ : ECS.getComponent
      { e with components := mapUpdate cid (fun a => a.set h.index (some v)) e.components }
      cid h = some (some v) := by
    rw [getComponent_eq_of_valid hval₁ hm₁, hgd₁]
  have hm₂ : mapGet cid (mapUpdate cid (fun a => a.set h.index (none : Slot))
      (mapUpdate cid (fun a => a.set h.index (some v)) e.components)) =
      some ((arr.set h.index (some v)).set h.index (none : Slot)) := by
    rw [mapGet_mapUpdate_self, hm₁]
    rfl
  have hval₂ : ECS.isValid
      { e with components := (mapUpdate cid (fun a => a.set h.index (none : Slot))
        (mapUpdate cid (fun a => a.set h.index (some v)) e.components)) }
      h = some true := hval
  have hgd₂ : ((arr.set h.index (some v)).set h.index (none : Slot)).getD h.index none =
      (none : Slot) := by
    rw [List.getD_eq_getElem?_getD, List.getElem?_set_self (by simpa using hidx)]
    rfl
  have hhas₂ : ECS.hasComponent
      { e with components := (mapUpdate cid (fun a => a.set h.index (none : Slot))
        (mapUpdate cid (fun a => a.set h.index (some v)) e.components)) }
      cid h = some false := by
    rw [hasComponent_eq_of_valid hval₂ hm₂, hgd₂]
    rfl
  have hgot₂ : ECS.getComponent
      { e with components := (mapUpdate cid (fun a => a.set h.index (none : Slot))
        (mapUpdate cid (fun a => a.set h.index (some v)) e.components)) }
      cid h = some (none : Option Nat) := by
    rw [getComponent_eq_of_valid hval₂ hm₂, hgd₂]
  exact ⟨_, addComponent_eq_of_valid hval hreg, hhas₁, hgot₁,
    _, removeComponent_eq_of_valid hval₁ hm₁, hhas₂, hgot₂⟩

/-- Witness for C3: a one-entity store with component type 5 registered. -/
theorem C3_witness :
    ∃ e₁, ECS.addComponent ⟨0, 1, 1, none, [⟨true, 1⟩], [(5, [none])]⟩ 5 ⟨0, 0, 1⟩ 7 =
        some e₁ ∧
      e₁.hasComponent 5 ⟨0, 0, 1⟩ = some true ∧
      e₁.getComponent 5 ⟨0, 0, 1⟩ = some (some 7) ∧
      ∃ e₂, e₁.removeComponent 5 ⟨0, 0, 1⟩ = some e₂ ∧
        e₂.hasComponent 5 ⟨0, 0, 1⟩ = some false ∧
        e₂.getComponent 5 ⟨0, 0, 1⟩ = some (none : Option Nat) :=
  C3_component_roundtrip ⟨0, 1, 1, none, [⟨true, 1⟩], [(5, [none])]⟩ 5 ⟨0, 0, 1⟩ 7
    [none] (by refine ⟨rfl, ?_, rfl⟩; intro p hp; simp at hp; subst hp; rfl) rfl rfl

/-! Claim C9. -/

/-- C9: a handle from a foreign store is always judged invalid, and every
per-entity operation on a handle judged invalid degrades gracefully:
reads yield nothing, presence checks are false, and writes and destroys
leave the store unchanged.  No such operation panics. -/
theorem C9_invalid_graceful :
    (∀ (e : ECS) (h : EntityID), h.sceneId ≠ e.sceneId → e.isValid h = some false) ∧
    (∀ (e : ECS) (cid : Nat) (h : EntityID) (v : Nat), e.isValid h = some false →
      e.getComponent cid h = some none ∧
      e.hasComponent cid h = some false ∧
      e.addComponent cid h v = some e ∧
      e.removeComponent cid h = some e ∧
      e.destroyEntity h = some e) := by
  constructor
  · intro e h hs
    unfold ECS.isValid
    rw [if_neg hs]
  · intro e cid h v hv
    refine ⟨?_, ?_, ?_, ?_, ?_⟩
    · simp only [ECS.getComponent, hv]
    · simp only [ECS.hasComponent, hv]
    · simp only [ECS.addComponent, hv]
    · simp only [ECS.removeComponent, hv]
    · simp only [ECS.destroyEntity, hv]

/-- Witness for C9: a numerically plausible handle minted by scene 1 is
rejected by the scene-0 store and all operations leave it untouched. -/
theorem C9_witness :
    ECS.isValid (ECS.new 0 1) ⟨1, 0, 1⟩ = some false ∧
      (ECS.getComponent (ECS.new 0 1) 5 ⟨1, 0, 1⟩ = some none ∧
        ECS.hasComponent (ECS.new 0 1) 5 ⟨1, 0, 1⟩ = some false ∧
        ECS.addComponent (ECS.new 0 1) 5 ⟨1, 0, 1⟩ 7 = some (ECS.new 0 1) ∧
        ECS.removeComponent (ECS.new 0 1) 5 ⟨1, 0, 1⟩ = some (ECS.new 0 1) ∧
        ECS.destroyEntity (ECS.new 0 1) ⟨1, 0, 1⟩ = some (ECS.new 0 1)) :=
  ⟨C9_invalid_graceful.1 (ECS.new 0 1) ⟨1, 0, 1⟩ (by decide),
    C9_invalid_graceful.2 (ECS.new 0 1) 5 ⟨1, 0, 1⟩ 7 rfl⟩

/-! Claim C8. -/

theorem createEntity_eq_of_first_dead {e : ECS} {i : Nat} {r : Entity}
    (hget : e.entities[i]? = some r) (hdead : r.alive = false)
    (hmin : ∀ j s, j < i → e.entities[j]? = some s → s.alive = true) :
    e.createEntity =
      some (some { sceneId := e.sceneId, index := i, generation := r.generation + 1 },
        { e with
          entities := e.entities.set i { alive := true, generation := r.generation + 1 },
          entityCount := e.entityCount + 1 }) := by
  unfold ECS.createEntity
  rw [allocateEntity_eq_some hget hdead hmin]

/-- C8: `create_entity` allocates by linear scan from index 0, returning a
handle whose index is the smallest dead index, setting it alive and
incrementing its generation; on a full table with no growth policy it
returns nothing and leaves the store unchanged; and after destroying an
entity whose index is the smallest free index, the next creation reuses
that index with the generation incremented by one. -/
theorem C8_create_scan (e : ECS) :
    (∀ (i : Nat) (r : Entity), e.entities[i]? = some r → r.alive = false →
      (∀ (j : Nat) (s : Entity), j < i → e.entities[j]? = some s → s.alive = true) →
      e.createEntity =
        some (some { sceneId := e.sceneId, index := i, generation := r.generation + 1 },
          { e with
            entities := e.entities.set i { alive := true, generation := r.generation + 1 },
            entityCount := e.entityCount + 1 })) ∧
    ((∀ r ∈ e.entities, r.alive = true) → e.growFn = none →
      e.createEntity = some (none, e)) ∧
    (∀ (h : EntityID) (e₂ : ECS), e.isValid h = some true →
      (∀ (j : Nat) (s : Entity), j < h.index → e.entities[j]? = some s → s.alive = true) →
      e.destroyEntity h = some e₂ →
      ∃ e₃, e₂.createEntity =
        some (some ⟨e.sceneId, h.index, h.generation + 1⟩, e₃)) := by
  refine ⟨?_, ?_, ?_⟩
  · intro i r hget hdead hmin
    exact createEntity_eq_of_first_dead hget hdead hmin
  · intro hall hgf
    unfold ECS.createEntity
    rw [allocateEntity_none.mpr hall, hgf]
  · intro h e₂ hv hmin hd
    rcases destroyEntity_spec hd with ⟨hvf, -⟩ | ⟨-, hget, he⟩
    · rw [hv] at hvf
      cases hvf
    · subst he
      have hlen : h.index < e.entities.length := getElem?_lt_length hget
      have hget₂ : (e.entities.set h.index
          { alive := false, generation := h.generation })[h.index]? =
          some { alive := false, generation := h.generation } :=
        List.getElem?_set_self hlen
      have hmin₂ : ∀ (j : Nat) (s : Entity), j < h.index →
          (e.entities.set h.index
            { alive := false, generation := h.generation })[j]? = some s →
          s.alive = true := by
        intro j s hj hjs
        rw [List.getElem?_set_ne (by omega)] at hjs
        exact hmin j s hj hjs
      exact ⟨_, createEntity_eq_of_first_dead hget₂ rfl hmin₂⟩

/-- Witness for C8: capacity 1, create, destroy, create again reuses index
0 at generation 2; an extra creation on the full table reports failure. -/
theorem C8_witness :
    ECS.createEntity ⟨0, 1, 0, none, [⟨false, 0⟩], []⟩ =
      some (some ⟨0, 0, 1⟩, ⟨0, 1, 1, none, [⟨true, 1⟩], []⟩) ∧
    ECS.createEntity ⟨0, 1, 1, none, [⟨true, 1⟩], []⟩ =
      some (none, ⟨0, 1, 1, none, [⟨true, 1⟩], []⟩) ∧
    ∃ e₃, ECS.createEntity ⟨0, 1, 0, none, [⟨false, 1⟩], []⟩ =
      some (some ⟨0, 0, 2⟩, e₃) := by
  refine ⟨?_, ?_, ?_⟩
  · exact (C8_create_scan ⟨0, 1, 0, none, [⟨false, 0⟩], []⟩).1 0 ⟨false, 0⟩ rfl rfl
      (fun j s hj hjs => absurd hj (by omega))
  · exact (C8_create_scan ⟨0, 1, 1, none, [⟨true, 1⟩], []⟩).2.1
      (by intro r hr; simp at hr; rw [hr]) rfl
  · exact (C8_create_scan ⟨0, 1, 1, none, [⟨true, 1⟩], []⟩).2.2 ⟨0, 0, 1⟩
      ⟨0, 1, 0, none, [⟨false, 1⟩], []⟩ rfl
      (fun j s hj hjs => absurd hj (Nat.not_lt_zero j)) rfl

/-! Claim C7. -/

/-- C7: growing to a strictly larger capacity succeeds and preserves every
entity record and every stored component slot at its original index, while
all indices at or beyond the old capacity are dead and empty; a growth
request that does not exceed the current capacity is a fatal contract
violation. -/
theorem C7_growth_preserves (e : ECS) (n : Nat) (hI : Inv e) :
    (e.capacity < n →
      ∃ e₁, e.growCapacityToSize n = some e₁ ∧
        e₁.capacity = n ∧
        (∀ i : Nat, i < e.capacity → e₁.entities[i]? = e.entities[i]?) ∧
        (∀ (cid : Nat) (arr : List Slot), mapGet cid e.components = some arr →
          ∃ arr₁, mapGet cid e₁.components = some arr₁ ∧
            ∀ i : Nat, i < e.capacity → arr₁[i]? = arr[i]?) ∧
        (∀ i : Nat, e.capacity ≤ i → i < n →
          e₁.entities[i]? = some { alive := false, generation := 0 } ∧
          ∀ (cid : Nat) (arr₁ : List Slot), mapGet cid e₁.components = some arr₁ →
            arr₁[i]? = some (none : Slot))) ∧
    (n ≤ e.capacity → e.growCapacityToSize n = none) := by
  constructor
  · intro hlt
    have hg : e.growCapacityToSize n = some { e with
        capacity := n,
        entities := vecResize e.entities n { alive := false, generation := 0 },
        components := e.components.map fun p => (p.1, arrayResize p.2 n) } := by
      unfold ECS.growCapacityToSize
      rw [if_pos hlt]
    refine ⟨_, hg, rfl, ?_, ?_, ?_⟩
    · intro i hi
      have hilen : i < e.entities.length := by
        have := hI.1
        omega
      exact vecResize_get_lt hilen (by omega)
    · intro cid arr hreg
      refine ⟨arrayResize arr n, ?_, ?_⟩
      · show mapGet cid (e.components.map fun p => (p.1, arrayResize p.2 n)) = _
        rw [mapGet_map_snd cid (fun a => arrayResize a n) e.components, hreg]
        rfl
      · intro i hi
        have harrlen : arr.length = e.capacity := hI.2.1 _ (mapGet_mem hreg)
        exact arrayResize_get_lt (by omega)
    · intro i hge hin
      constructor
      · have hilen : e.entities.length ≤ i := by
          have := hI.1
          omega
        exact vecResize_get_new hilen hin
      · intro cid arr₁ hreg₁
        have hreg₁' : mapGet cid (e.components.map fun p => (p.1, arrayResize p.2 n)) =
            some arr₁ := hreg₁
        rw [mapGet_map_snd cid (fun a => arrayResize a n) e.components] at hreg₁'
        obtain ⟨arr, hreg, harr⟩ := Option.map_eq_some'.mp hreg₁'
        subst harr
        have harrlen : arr.length = e.capacity := hI.2.1 _ (mapGet_mem hreg)
        exact arrayResize_get_new (by omega) hin
  · intro hle
    exact growCapacityToSize_none hle

/-- Witness for C7: growing a capacity-1 store with one stored component
to capacity 2, and the rejection of a non-growing request. -/
theorem C7_witness :
    (∃ e₁, ECS.growCapacityToSize ⟨0, 1, 1, none, [⟨true, 1⟩], [(5, [some 7])]⟩ 2 =
        some e₁ ∧
      e₁.capacity = 2 ∧
      (∀ i : Nat, i < 1 → e₁.entities[i]? =
        (⟨0, 1, 1, none, [⟨true, 1⟩], [(5, [some 7])]⟩ : ECS).entities[i]?) ∧
      (∀ (cid : Nat) (arr : List Slot),
        mapGet cid [(5, [some 7])] = some arr →
        ∃ arr₁, mapGet cid e₁.components = some arr₁ ∧
          ∀ i : Nat, i < 1 → arr₁[i]? = arr[i]?) ∧
      (∀ i : Nat, 1 ≤ i → i < 2 →
        e₁.entities[i]? = some { alive := false, generation := 0 } ∧
        ∀ (cid : Nat) (arr₁ : List Slot), mapGet cid e₁.components = some arr₁ →
          arr₁[i]? = some (none : Slot))) ∧
    ECS.growCapacityToSize ⟨0, 1, 1, none, [⟨true, 1⟩], [(5, [some 7])]⟩ 1 = none := by
  have hI : Inv ⟨0, 1, 1, none, [⟨true, 1⟩], [(5, [some 7])]⟩ := by
    refine ⟨rfl, ?_, rfl⟩
    intro p hp
    simp at hp
    subst hp
    rfl
  exact ⟨(C7_growth_preserves ⟨0, 1, 1, none, [⟨true, 1⟩], [(5, [some 7])]⟩ 2 hI).1
      (by decide),
    (C7_growth_preserves ⟨0, 1, 1, none, [⟨true, 1⟩], [(5, [some 7])]⟩ 1 hI).2
      (by decide)⟩

/-! Claim C4. -/

theorem roundUp_dvd (n a : Nat) : a ∣ roundUp n a := Dvd.intro_left _ rfl

theorem le_roundUp (n a : Nat) (ha : 1 ≤ a) : n ≤ roundUp n a := by
  unfold roundUp
  have h1 : n + a - 1 < (n + a - 1) / a * a + a := Nat.lt_div_mul_add (by omega)
  omega

/-- C4: the stride stored for every registered component type is at least
one byte larger than the component value (room for the tag), and it is a
multiple of the component type's alignment, so consecutive slots keep
every payload aligned.  The `size % align` summand of the source formula
is always zero because the size of a Rust type is a multiple of its
alignment. -/
theorem C4_stride_invariant (c : Layout) (ha : 1 ≤ c.align) :
    1 + c.size ≤ (ComponentInfo.new c).stride ∧
      ((ComponentInfo.new c).stride % c.align = 0 ∨
        ∀ N : Nat, (N * (ComponentInfo.new c).stride + payloadOffset c) % c.align = 0) := by
  have hmax : max 1 c.align = c.align := max_eq_right ha
  have hdvd : c.align ∣ (slotLayout c).size := by
    unfold slotLayout
    rw [hmax]
    exact roundUp_dvd _ _
  have hmod : (slotLayout c).size % (slotLayout c).align = 0 := by
    show (slotLayout c).size % max 1 c.align = 0
    rw [hmax]
    exact Nat.mod_eq_zero_of_dvd hdvd
  have hstride : (ComponentInfo.new c).stride = (slotLayout c).size := by
    unfold ComponentInfo.new
    rw [hmod]
    rfl
  constructor
  · rw [hstride]
    show 1 + c.size ≤ roundUp (roundUp 1 (max 1 c.align) + c.size) (max 1 c.align)
    have h1 : 1 ≤ roundUp 1 (max 1 c.align) := le_roundUp 1 _ (by omega)
    have h2 : roundUp 1 (max 1 c.align) + c.size ≤
        roundUp (roundUp 1 (max 1 c.align) + c.size) (max 1 c.align) :=
      le_roundUp _ _ (by omega)
    omega
  · left
    rw [hstride]
    exact Nat.mod_eq_zero_of_dvd hdvd

/-- Witness for C4: a component of size 4 and alignment 4 (slot size 8)
gets stride 8, which is at least 5 and a multiple of 4. -/
theorem C4_witness :
    1 + (Layout.mk 4 4).size ≤ (ComponentInfo.new (Layout.mk 4 4)).stride ∧
      ((ComponentInfo.new (Layout.mk 4 4)).stride % (Layout.mk 4 4).align = 0 ∨
        ∀ N : Nat, (N * (ComponentInfo.new (Layout.mk 4 4)).stride +
          payloadOffset (Layout.mk 4 4)) % (Layout.mk 4 4).align = 0) :=
  C4_stride_invariant (Layout.mk 4 4) (by decide)

/-! Claim C10. -/

/-- C10: the cached entity count equals the number of alive records in
every reachable state: it starts at 0, `create_entity` increments it by
one exactly when it returns a handle, `destroy_entity` decrements it by
one exactly when given a valid handle, and no other operation changes
it. -/
theorem C10_entity_count :
    (∀ sid c : Nat, (ECS.new sid c).entityCount = 0) ∧
    (∀ (sid c : Nat) (ops : List Op) (e₁ : ECS),
      (ECS.new sid c).run ops = some e₁ →
      e₁.entityCount = e₁.entities.countP (fun r => r.alive)) ∧
    (∀ (e : ECS) (h : EntityID) (e₁ : ECS), e.createEntity = some (some h, e₁) →
      e₁.entityCount = e.entityCount + 1) ∧
    (∀ (e e₁ : ECS), e.createEntity = some (none, e₁) → e₁ = e) ∧
    (∀ (e : ECS) (h : EntityID) (e₁ : ECS), Inv e → e.destroyEntity h = some e₁ →
      (e.isValid h = some true → e₁.entityCount + 1 = e.entityCount) ∧
      (e.isValid h = some false → e₁ = e)) ∧
    (∀ (e : ECS) (cid : Nat) (h : EntityID) (v : Nat) (e₁ : ECS),
      e.addComponent cid h v = some e₁ → e₁.entityCount = e.entityCount) ∧
    (∀ (e : ECS) (cid : Nat) (h : EntityID) (e₁ : ECS),
      e.removeComponent cid h = some e₁ → e₁.entityCount = e.entityCount) ∧
    (∀ (e : ECS) (n : Nat) (e₁ : ECS), e.growCapacityToSize n = some e₁ →
      e₁.entityCount = e.entityCount) ∧
    (∀ (e : ECS) (cid : Nat), (e.register cid).entityCount = e.entityCount) ∧
    (∀ (e : ECS) (g : Option (Nat → Nat)), (e.setGrowFn g).entityCount = e.entityCount) := by
  refine ⟨?_, ?_, ?_, ?_, ?_, ?_, ?_, ?_, ?_, ?_⟩
  · intro sid c
    rfl
  · intro sid c ops e₁ hr
    exact (Inv_run (Inv_new sid c) hr).2.2
  · intro e h e₁ hc
    obtain ⟨eb, hb, ea, halloc, he⟩ := createEntity_some_spec hc
    subst he
    have hbcount : eb.entityCount = e.entityCount := by
      rcases hb with hb | ⟨-, hb⟩
      · rw [hb]
      · obtain ⟨g, -, hgg⟩ := growCapacity_spec hb
        obtain ⟨-, heb⟩ := growCapacityToSize_spec hgg
        rw [heb]
    obtain ⟨-, r, -, -, -, -, hea⟩ := allocateEntity_spec halloc
    subst hea
    show eb.entityCount + 1 = e.entityCount + 1
    rw [hbcount]
  · intro e e₁ hc
    exact (createEntity_none_spec hc).1
  · intro e h e₁ hI hd
    constructor
    · intro hv
      rcases destroyEntity_spec hd with ⟨hvf, -⟩ | ⟨-, hget, he⟩
      · rw [hv] at hvf
        cases hvf
      · subst he
        have hpos : 0 < e.entityCount := by
          rw [hI.2.2]
          rw [List.countP_pos_iff]
          exact ⟨_, List.getElem?_mem hget, rfl⟩
        show e.entityCount - 1 + 1 = e.entityCount
        omega
    · intro hv
      rcases destroyEntity_spec hd with ⟨-, he⟩ | ⟨hvt, -, -⟩
      · exact he
      · rw [hv] at hvt
        cases hvt
  · intro e cid h v e₁ ha
    rcases addComponent_spec ha with ⟨-, he⟩ | ⟨-, arr, hm, he⟩ <;> subst he <;> rfl
  · intro e cid h e₁ ha
    rcases removeComponent_spec ha with ⟨-, he⟩ | ⟨-, arr, hm, he⟩ <;> subst he <;> rfl
  · intro e n e₁ hg
    obtain ⟨-, he⟩ := growCapacityToSize_spec hg
    subst he
    rfl
  · intro e cid
    rfl
  · intro e g
    rfl

/-- Witness for C10: the count after one creation equals the one alive
record. -/
theorem C10_witness :
    ECS.entityCount ⟨0, 1, 1, none, [⟨true, 1⟩], []⟩ =
      List.countP (fun r => r.alive) [({ alive := true, generation := 1 } : Entity)] :=
  C10_entity_count.2.1 0 1 [Op.create] ⟨0, 1, 1, none, [⟨true, 1⟩], []⟩ rfl

/-! Claim C6: the single-type query. -/

/-- Modelled from the spec: `ECS::get_index` is called by the query
iterator (src/query.rs) but is not among the provided source files; per
§4.5 of the specification the handle reconstructed at index `i` carries
the entity table's current generation for that index. -/
def ECS.getIndex (e : ECS) (i : Nat) : Option EntityID :=
  (e.entities[i]?).map fun r => { sceneId := e.sceneId, index := i, generation := r.generation }

theorem getIndex_eq {e : ECS} {i : Nat} {r : Entity} (hr : e.entities[i]? = some r) :
    e.getIndex i = some { sceneId := e.sceneId, index := i, generation := r.generation } := by
  unfold ECS.getIndex
  rw [hr]
  rfl

/-- Exhaustive single-type query iteration (src/query.rs `impl Query for C`
together with `Iterator for QueryIter`): the cursor walks `0..capacity`,
skipping empty slots and yielding `(get_index(i).unwrap(), value)` for
every filled slot.  `fuel` bounds the remaining scan steps; the empty list
on an exhausted `get_index` models the `unwrap` panic, unreachable while
the entity table is at least `capacity` long. -/
def queryFrom (e : ECS) (arr : List Slot) : Nat → Nat → List (EntityID × Nat)
  | 0, _ => []
  | fuel + 1, i =>
    if i < e.capacity then
      match arr.getD i none, e.getIndex i with
      | some v, some id => (id, v) :: queryFrom e arr fuel (i + 1)
      | some _, none => []
      | none, _ => queryFrom e arr fuel (i + 1)
    else []

/-- Full result of a single-type query over `cid` (`QueryIter::new`
followed by iteration to exhaustion); `none` models the `unwrap` panic of
`get_array` for an unregistered type. -/
def ECS.queryList (e : ECS) (cid : Nat) : Option (List (EntityID × Nat)) :=
  (mapGet cid e.components).map fun arr => queryFrom e arr (e.capacity + 1) 0

/-- Expected yield at one cell: the pair of reconstructed handle and value
when the slot is filled and the entity record exists. -/
def queryCell (e : ECS) (arr : List Slot) (j : Nat) : Option (EntityID × Nat) :=
  match arr.getD j none, e.entities[j]? with
  | some v, some r =>
      some ({ sceneId := e.sceneId, index := j, generation := r.generation }, v)
  | _, _ => none

theorem queryCell_eq_some {e : ECS} {arr : List Slot} {j : Nat} {p : EntityID × Nat}
    (hc : queryCell e arr j = some p) :
    arr.getD j none = some p.2 ∧ ∃ r : Entity, e.entities[j]? = some r ∧
      p.1 = { sceneId := e.sceneId, index := j, generation := r.generation } := by
  unfold queryCell at hc
  split at hc
  · rename_i v r heq1 heq2
    cases hc
    exact ⟨heq1, r, heq2, rfl⟩
  · cases hc

theorem queryCell_index {e : ECS} {arr : List Slot} {j : Nat} {p : EntityID × Nat}
    (hc : queryCell e arr j = some p) : p.1.index = j := by
  obtain ⟨-, r, -, hp1⟩ := queryCell_eq_some hc
  rw [hp1]

theorem queryFrom_eq_filterMap (e : ECS) (arr : List Slot) :
    ∀ (fuel i : Nat), e.capacity ≤ i + fuel → e.capacity ≤ e.entities.length →
      queryFrom e arr fuel i =
        (List.range' i (e.capacity - i)).filterMap (queryCell e arr)
  | 0, i, hfuel, hlen => by
      have h0 : e.capacity - i = 0 := by omega
      rw [h0]
      rfl
  | fuel + 1, i, hfuel, hlen => by
      by_cases hi : i < e.capacity
      · have hient : i < e.entities.length := by omega
        obtain ⟨r, hr⟩ : ∃ r : Entity, e.entities[i]? = some r :=
          ⟨e.entities[i], List.getElem?_eq_getElem hient⟩
        have hstep : e.capacity - i = (e.capacity - (i + 1)) + 1 := by omega
        rw [hstep, List.range'_succ, List.filterMap_cons]
        unfold queryFrom
        rw [if_pos hi]
        cases hslot : arr.getD i none with
        | some v =>
            have hcell : queryCell e arr i =
                some ({ sceneId := e.sceneId, index := i, generation := r.generation },
                  v) := by
              unfold queryCell
              rw [hslot, hr]
            rw [getIndex_eq hr, hcell,
              queryFrom_eq_filterMap e arr fuel (i + 1) (by omega) hlen]
        | none =>
            have hcell : queryCell e arr i = none := by
              unfold queryCell
              rw [hslot, hr]
            rw [hcell, queryFrom_eq_filterMap e arr fuel (i + 1) (by omega) hlen]
      · have h0 : e.capacity - i = 0 := by omega
        rw [h0]
        unfold queryFrom
        rw [if_neg hi]
        rfl

theorem pairwise_index_filterMap (e : ECS) (arr : List Slot) (l : List Nat)
    (hl : l.Pairwise (· < ·)) :
    ((l.filterMap (queryCell e arr)).map fun p => p.1.index).Pairwise (· < ·) := by
  induction l with
  | nil => simp
  | cons a l ih =>
      rw [List.pairwise_cons] at hl
      obtain ⟨ha, hl⟩ := hl
      rw [List.filterMap_cons]
      cases hc : queryCell e arr a with
      | none => exact ih hl
      | some p =>
          rw [List.map_cons, List.pairwise_cons]
          refine ⟨?_, ih hl⟩
          intro x hx
          rw [List.mem_map] at hx
          obtain ⟨q, hq, hx⟩ := hx
          rw [List.mem_filterMap] at hq
          obtain ⟨b, hb, hqc⟩ := hq
          rw [← hx, queryCell_index hqc, queryCell_index hc]
          exact ha b hb

/-- C6: iterating a single-type query to exhaustion yields exactly the
entities whose slot for the queried type is filled, each exactly once, in
strictly ascending index order, each handle carrying the entity table's
current generation for its index. -/
theorem C6_query_exact (e : ECS) (cid : Nat) (arr : List Slot) (hI : Inv e)
    (hreg : mapGet cid e.components = some arr) :
    ∃ L, e.queryList cid = some L ∧
      (∀ p : EntityID × Nat, p ∈ L ↔
        ∃ j : Nat, j < e.capacity ∧ arr.getD j none = some p.2 ∧
          ∃ r : Entity, e.entities[j]? = some r ∧
            p.1 = { sceneId := e.sceneId, index := j, generation := r.generation }) ∧
      ((L.map fun p => p.1.index).Pairwise (· < ·)) ∧ L.Nodup := by
  have hlen : e.capacity ≤ e.entities.length := le_of_eq hI.1.symm
  have hQ : e.queryList cid = some (queryFrom e arr (e.capacity + 1) 0) := by
    unfold ECS.queryList
    rw [hreg]
    rfl
  have hF : queryFrom e arr (e.capacity + 1) 0 =
      (List.range' 0 e.capacity).filterMap (queryCell e arr) := by
    have hh := queryFrom_eq_filterMap e arr (e.capacity + 1) 0 (by omega) hlen
    simpa using hh
  have hPW : ((queryFrom e arr (e.capacity + 1) 0).map fun p => p.1.index).Pairwise
      (· < ·) := by
    rw [hF]
    exact pairwise_index_filterMap e arr _ (List.pairwise_lt_range' 0 e.capacity)
  refine ⟨_, hQ, ?_, hPW, ?_⟩
  · intro p
    rw [hF, List.mem_filterMap]
    constructor
    · rintro ⟨j, hj, hcell⟩
      have hjlt : j < e.capacity := by
        have hm := List.mem_range'_1.mp hj
        omega
      obtain ⟨hslot, r, hent, hp1⟩ := queryCell_eq_some hcell
      exact ⟨j, hjlt, hslot, r, hent, hp1⟩
    · rintro ⟨j, hjlt, hslot, r, hent, hp1⟩
      refine ⟨j, List.mem_range'_1.mpr ⟨by omega, by omega⟩, ?_⟩
      obtain ⟨p1, p2⟩ := p
      unfold queryCell
      rw [hslot, hent]
      simp only at hp1
      rw [hp1]
  · have hND : ((queryFrom e arr (e.capacity + 1) 0).map fun p => p.1.index).Nodup :=
      hPW.imp Nat.ne_of_lt
    exact hND.of_map _

/-- Witness for C6: a capacity-2 store whose slot 0 for type 5 is filled
with 7 and slot 1 empty yields exactly the index-0 entity. -/
theorem C6_witness :
    ∃ L, ECS.queryList ⟨0, 2, 1, none, [⟨true, 1⟩, ⟨false, 0⟩], [(5, [some 7, none])]⟩ 5 =
        some L ∧
      (∀ p : EntityID × Nat, p ∈ L ↔
        ∃ j : Nat, j < 2 ∧ ([some 7, none] : List Slot).getD j none = some p.2 ∧
          ∃ r : Entity, ([⟨true, 1⟩, ⟨false, 0⟩] : List Entity)[j]? = some r ∧
            p.1 = { sceneId := 0, index := j, generation := r.generation }) ∧
      ((L.map fun p => p.1.index).Pairwise (· < ·)) ∧ L.Nodup :=
  C6_query_exact ⟨0, 2, 1, none, [⟨true, 1⟩, ⟨false, 0⟩], [(5, [some 7, none])]⟩ 5
    [some 7, none]
    (by refine ⟨rfl, ?_, rfl⟩; intro p hp; simp at hp; subst hp; rfl) rfl

/-! Claim C5: destructor discipline. -/

/-- Destructor invocations owed by one logical slot (one when filled). -/
def slotDrops (s : Slot) : Nat := if s.isSome then 1 else 0

/-- Number of filled slots in one array. -/
def arrPresent (arr : List Slot) : Nat := arr.countP fun s => s.isSome

/-- Number of filled slots across the component map. -/
def presentSum : List (Nat × List Slot) → Nat
  | [] => 0
  | p :: ps => arrPresent p.2 + presentSum ps

/-- Number of filled slots of the store. -/
def presentCount (e : ECS) : Nat := presentSum e.components

/-- Destructor invocations of tearing down one component array
(`impl Drop for ComponentArray` runs `delete_index` on every slot in turn,
dropping the payload exactly when the slot is filled). -/
def dropLoop : List Slot → Nat
  | [] => 0
  | s :: rest => slotDrops s + dropLoop rest

/-- Destructor invocations of `ComponentMap::delete_index` at one index:
one per array whose slot at that index is filled. -/
def indexDrops (i : Nat) : List (Nat × List Slot) → Nat
  | [] => 0
  | p :: ps => slotDrops (p.2.getD i none) + indexDrops i ps

/-- Destructor invocations of dropping the whole store (every
`ComponentArray` in the map is dropped). -/
def teardownSum : List (Nat × List Slot) → Nat
  | [] => 0
  | p :: ps => dropLoop p.2 + teardownSum ps

/-- Destructor invocations of dropping the whole store. -/
def teardownDrops (e : ECS) : Nat := teardownSum e.components

/-- Payload-destructor invocations one operation performs: the slice
writes of `add_component` and `remove_component` drop the value they
overwrite, `destroy_entity` clears the destroyed index in every array,
and re-registering a type drops the replaced array. -/
def opDrops (e : ECS) : Op → Nat
  | .destroy h =>
      match e.isValid h with
      | some true => indexDrops h.index e.components
      | _ => 0
  | .addComp cid h _ =>
      match e.isValid h with
      | some true =>
          match mapGet cid e.components with
          | some arr => slotDrops (arr.getD h.index none)
          | none => 0
      | _ => 0
  | .removeComp cid h =>
      match e.isValid h with
      | some true =>
          match mapGet cid e.components with
          | some arr => slotDrops (arr.getD h.index none)
          | none => 0
      | _ => 0
  | .registerComp cid =>
      match mapGet cid e.components with
      | some arr => dropLoop arr
      | none => 0
  | _ => 0

/-- Component values an operation constructs in a slot (only a successful
`add_component` does). -/
def opWrites (e : ECS) : Op → Nat
  | .addComp cid h _ =>
      match e.isValid h with
      | some true =>
          match mapGet cid e.components with
          | some _ => 1
          | none => 0
      | _ => 0
  | _ => 0

/-- Run instrumented with destructor-invocation and slot-write counters. -/
def ECS.runCount (e : ECS) : List Op → Option (ECS × Nat × Nat)
  | [] => some (e, 0, 0)
  | op :: ops =>
      match e.applyOp op with
      | some e₁ =>
          (e₁.runCount ops).map fun q => (q.1, opDrops e op + q.2.1, opWrites e op + q.2.2)
      | none => none

theorem dropLoop_eq_arrPresent (arr : List Slot) : dropLoop arr = arrPresent arr := by
  induction arr with
  | nil => rfl
  | cons s rest ih =>
      show slotDrops s + dropLoop rest = List.countP (fun s => s.isSome) (s :: rest)
      rw [List.countP_cons, ih]
      show slotDrops s + arrPresent rest = arrPresent rest + _
      cases s <;> simp [slotDrops, Nat.add_comm]

theorem teardownSum_eq_presentSum (m : List (Nat × List Slot)) :
    teardownSum m = presentSum m := by
  induction m with
  | nil => rfl
  | cons p ps ih =>
      show dropLoop p.2 + teardownSum ps = arrPresent p.2 + presentSum ps
      rw [dropLoop_eq_arrPresent, ih]

theorem arrPresent_set (arr : List Slot) (i : Nat) (x : Slot) (hi : i < arr.length) :
    arrPresent (arr.set i x) + slotDrops (arr.getD i none) =
      arrPresent arr + slotDrops x := by
  induction arr generalizing i with
  | nil => simp at hi
  | cons s rest ih =>
      cases i with
      | zero =>
          show arrPresent (x :: rest) + slotDrops s = arrPresent (s :: rest) + slotDrops x
          unfold arrPresent
          rw [List.countP_cons, List.countP_cons]
          unfold slotDrops
          cases s <;> cases x <;> simp
      | succ i =>
          have hi2 : i < rest.length := by simpa using hi
          show arrPresent (s :: rest.set i x) + slotDrops (rest.getD i none) =
            arrPresent (s :: rest) + slotDrops x
          unfold arrPresent
          rw [List.countP_cons, List.countP_cons]
          have hrec := ih i hi2
          unfold arrPresent at hrec
          omega

theorem presentSum_deleteIndexAll (i : Nat) (m : List (Nat × List Slot))
    (hlen : ∀ p ∈ m, i < (p.2 : List Slot).length) :
    presentSum (deleteIndexAll i m) + indexDrops i m = presentSum m := by
  induction m with
  | nil => rfl
  | cons p ps ih =>
      show arrPresent (p.2.set i none) + presentSum (deleteIndexAll i ps) +
        (slotDrops (p.2.getD i none) + indexDrops i ps) =
        arrPresent p.2 + presentSum ps
      have h1 := arrPresent_set p.2 i none (hlen p (List.mem_cons_self _ _))
      have h2 := ih (fun q hq => hlen q (List.mem_cons_of_mem _ hq))
      have h3 : slotDrops (none : Slot) = 0 := rfl
      omega

theorem presentSum_mapUpdate_set (cid : Nat) (i : Nat) (x : Slot)
    (m : List (Nat × List Slot)) (arr : List Slot)
    (hm : mapGet cid m = some arr) (hi : i < arr.length) :
    presentSum (mapUpdate cid (fun a => a.set i x) m) + slotDrops (arr.getD i none) =
      presentSum m + slotDrops x := by
  induction m with
  | nil => cases hm
  | cons p ps ih =>
      by_cases hp : p.1 = cid
      · have harr : p.2 = arr := by
          unfold mapGet at hm
          rw [if_pos hp] at hm
          exact Option.some.inj hm
        subst harr
        unfold mapUpdate
        rw [if_pos hp]
        show arrPresent (p.2.set i x) + presentSum ps + slotDrops (p.2.getD i none) =
          arrPresent p.2 + presentSum ps + slotDrops x
        have h1 := arrPresent_set p.2 i x hi
        omega
      · have hm₂ : mapGet cid ps = some arr := by
          unfold mapGet at hm
          rw [if_neg hp] at hm
          exact hm
        unfold mapUpdate
        rw [if_neg hp]
        show arrPresent p.2 + presentSum (mapUpdate cid (fun a => a.set i x) ps) +
          slotDrops (arr.getD i none) = arrPresent p.2 + presentSum ps + slotDrops x
        have h2 := ih hm₂
        omega

theorem presentSum_mapInsert_zero (cid : Nat) (c : Nat) (m : List (Nat × List Slot)) :
    presentSum (mapInsert cid (List.replicate c (none : Slot)) m) +
      (match mapGet cid m with
        | some arr => dropLoop arr
        | none => 0) = presentSum m := by
  induction m with
  | nil =>
      show arrPresent (List.replicate c none) + 0 + 0 = 0
      unfold arrPresent
      rw [List.countP_replicate]
      simp
  | cons p ps ih =>
      by_cases hp : p.1 = cid
      · unfold mapInsert mapGet
        rw [if_pos hp, if_pos hp]
        show arrPresent (List.replicate c none) + presentSum ps + dropLoop p.2 =
          arrPresent p.2 + presentSum ps
        have h0 : arrPresent (List.replicate c (none : Slot)) = 0 := by
          unfold arrPresent
          rw [List.countP_replicate]
          simp
        rw [dropLoop_eq_arrPresent]
        omega
      · unfold mapInsert mapGet
        rw [if_neg hp, if_neg hp]
        show arrPresent p.2 + presentSum (mapInsert cid (List.replicate c none) ps) +
          (match mapGet cid ps with | some arr => dropLoop arr | none => 0) =
          arrPresent p.2 + presentSum ps
        omega

theorem arrPresent_arrayResize (arr : List Slot) (n : Nat) :
    arrPresent (arrayResize arr n) = arrPresent arr := by
  unfold arrayResize arrPresent
  rw [List.countP_append, List.countP_replicate]
  simp

theorem presentSum_map_resize (m : List (Nat × List Slot)) (n : Nat) :
    presentSum (m.map fun p => (p.1, arrayResize p.2 n)) = presentSum m := by
  induction m with
  | nil => rfl
  | cons p ps ih =>
      show arrPresent (arrayResize p.2 n) + presentSum (ps.map _) =
        arrPresent p.2 + presentSum ps
      rw [arrPresent_arrayResize, ih]

theorem accounting_step {e : ECS} {op : Op} {e₁ : ECS} (hI : Inv e)
    (hs : e.applyOp op = some e₁) :
    presentCount e₁ + opDrops e op = presentCount e + opWrites e op := by
  cases op with
  | create =>
      unfold ECS.applyOp at hs
      cases hc : e.createEntity with
      | none => rw [hc] at hs; cases hs
      | some q =>
          rw [hc] at hs
          cases hs
          obtain ⟨res, e₂⟩ := q
          show presentCount e₂ + 0 = presentCount e + 0
          cases res with
          | none =>
              obtain ⟨he, -, -⟩ := createEntity_none_spec hc
              rw [he]
          | some h =>
              obtain ⟨eb, hb, ea, halloc, he⟩ := createEntity_some_spec hc
              subst he
              obtain ⟨-, r, -, -, -, -, hea⟩ := allocateEntity_spec halloc
              subst hea
              show presentSum eb.components + 0 = presentSum e.components + 0
              rcases hb with hb | ⟨-, hb⟩
              · rw [hb]
              · obtain ⟨g, -, hgg⟩ := growCapacity_spec hb
                obtain ⟨-, heb⟩ := growCapacityToSize_spec hgg
                rw [heb]
                show presentSum
                    (e.components.map fun p => (p.1, arrayResize p.2 (g e.capacity))) + 0 =
                  presentSum e.components + 0
                rw [presentSum_map_resize]
  | destroy h =>
      rcases destroyEntity_spec hs with ⟨hv, he⟩ | ⟨hv, hget, he⟩
      · subst he
        simp only [presentCount, opDrops, opWrites, hv]
      · subst he
        have hidx : h.index < e.capacity := by
          have h1 := getElem?_lt_length hget
          have h2 := hI.1
          omega
        have hlen : ∀ p ∈ e.components, h.index < (p.2 : List Slot).length := by
          intro p hp
          rw [hI.2.1 p hp]
          exact hidx
        simp only [presentCount, opDrops, opWrites, hv]
        have hdel := presentSum_deleteIndexAll h.index e.components hlen
        omega
  | addComp cid h v =>
      rcases addComponent_spec hs with ⟨hv, he⟩ | ⟨hv, arr, hm, he⟩
      · subst he
        simp only [presentCount, opDrops, opWrites, hv]
      · subst he
        have harrlen : arr.length = e.capacity := hI.2.1 _ (mapGet_mem hm)
        have hidx : h.index < arr.length := by
          have h1 := getElem?_lt_length (isValid_true_spec hv).2
          have h2 := hI.1
          omega
        simp only [presentCount, opDrops, opWrites, hv, hm]
        have hupd := presentSum_mapUpdate_set cid h.index (some v) e.components arr hm hidx
        have hsv : slotDrops (some v) = 1 := rfl
        omega
  | removeComp cid h =>
      rcases removeComponent_spec hs with ⟨hv, he⟩ | ⟨hv, arr, hm, he⟩
      · subst he
        simp only [presentCount, opDrops, opWrites, hv]
      · subst he
        have harrlen : arr.length = e.capacity := hI.2.1 _ (mapGet_mem hm)
        have hidx : h.index < arr.length := by
          have h1 := getElem?_lt_length (isValid_true_spec hv).2
          have h2 := hI.1
          omega
        simp only [presentCount, opDrops, opWrites, hv, hm]
        have hupd := presentSum_mapUpdate_set cid h.index (none : Slot) e.components arr hm hidx
        have hsn : slotDrops (none : Slot) = 0 := rfl
        omega
  | registerComp cid =>
      cases hs
      have hz := presentSum_mapInsert_zero cid e.capacity e.components
      cases hm : mapGet cid e.components with
      | some arr =>
          simp only [presentCount, opDrops, opWrites, hm, ECS.register] at hz ⊢
          omega
      | none =>
          simp only [presentCount, opDrops, opWrites, hm, ECS.register] at hz ⊢
          omega
  | growTo n =>
      obtain ⟨-, he⟩ := growCapacityToSize_spec hs
      subst he
      show presentSum (e.components.map fun p => (p.1, arrayResize p.2 n)) + 0 =
        presentSum e.components + 0
      rw [presentSum_map_resize]
  | grow =>
      obtain ⟨g, -, hgg⟩ := growCapacity_spec hs
      obtain ⟨-, he⟩ := growCapacityToSize_spec hgg
      subst he
      show presentSum (e.components.map fun p => (p.1, arrayResize p.2 (g e.capacity))) + 0 =
        presentSum e.components + 0
      rw [presentSum_map_resize]
  | setGrow g =>
      cases hs
      rfl

theorem accounting_run {e : ECS} {ops : List Op} {e₁ : ECS} {d w : Nat} (hI : Inv e)
    (hr : e.runCount ops = some (e₁, d, w)) :
    presentCount e₁ + d = presentCount e + w := by
  induction ops generalizing e d w with
  | nil =>
      obtain ⟨he, hd, hw⟩ : e = e₁ ∧ 0 = d ∧ 0 = w := by
        refine ⟨?_, ?_, ?_⟩ <;> cases hr <;> rfl
      rw [← he, ← hd, ← hw]
  | cons op ops ih =>
      unfold ECS.runCount at hr
      cases hs : e.applyOp op with
      | none => rw [hs] at hr; cases hr
      | some e₂ =>
          rw [hs] at hr
          obtain ⟨⟨e₃, d₃, w₃⟩, hrc, heq⟩ := Option.map_eq_some'.mp hr
          obtain ⟨he, hd, hw⟩ : e₃ = e₁ ∧ opDrops e op + d₃ = d ∧
              opWrites e op + w₃ = w := by
            refine ⟨?_, ?_, ?_⟩ <;> cases heq <;> rfl
          subst he
          have h1 := accounting_step hI hs
          have h2 := ih (Inv_applyOp hI hs) hrc
          omega

/-- C5 (amended): at the byte level, `delete_index` invokes the payload
destructor exactly when the slot is filled (tag nonzero), zeroes the
slot's tag byte while leaving the payload bytes in place, regardless of
prior state, and is idempotent; consequently, over every panic-free
operation sequence from a fresh store followed by store teardown, each
component value ever written runs its destructor exactly once — no leak
and no double drop. -/
theorem C5_delete_index_drop_discipline :
    (∀ (arr : List ByteSlot) (i : Nat) (s : ByteSlot), arr[i]? = some s →
      (deleteIndexByte arr i).2 = (if s.tag = 0 then 0 else 1) ∧
      (deleteIndexByte arr i).1[i]? = some { tag := 0, payload := s.payload } ∧
      deleteIndexByte (deleteIndexByte arr i).1 i = ((deleteIndexByte arr i).1, 0)) ∧
    (∀ (sid c : Nat) (ops : List Op) (e₁ : ECS) (d w : Nat),
      (ECS.new sid c).runCount ops = some (e₁, d, w) →
      d + teardownDrops e₁ = w) := by
  constructor
  · intro arr i s hget
    have hi : i < arr.length := getElem?_lt_length hget
    have hd : deleteIndexByte arr i =
        (arr.set i { tag := 0, payload := s.payload }, if s.tag = 0 then 0 else 1) := by
      unfold deleteIndexByte
      rw [hget]
    rw [hd]
    refine ⟨rfl, List.getElem?_set_self hi, ?_⟩
    show deleteIndexByte (arr.set i { tag := 0, payload := s.payload }) i = _
    unfold deleteIndexByte
    rw [List.getElem?_set_self hi]
    simp [List.set_set]
  · intro sid c ops e₁ d w hr
    have hacc := accounting_run (Inv_new sid c) hr
    have hnew : presentCount (ECS.new sid c) = 0 := rfl
    have htd : teardownDrops e₁ = presentCount e₁ := teardownSum_eq_presentSum _
    omega

/-- Property "the whole slot, tag and payload bytes alike, is zeroed". -/
def slotZeroed (s : ByteSlot) : Prop := s.tag = 0 ∧ ∀ b ∈ s.payload, b = 0

/-- Counterexample to C5 as stated: deleting a filled slot whose payload
byte is 5 zeroes only the tag byte; the payload byte survives, so the
whole slot is not zeroed. -/
theorem C5_whole_slot_counterexample :
    (deleteIndexByte [{ tag := 1, payload := [5] }] 0).1[0]? =
        some { tag := 0, payload := [5] } ∧
      ¬ slotZeroed { tag := 0, payload := [5] } := by
  constructor
  · rfl
  · intro hz
    have h5 := hz.2 5 (by simp)
    omega

/-- Witness for C5: one concrete filled slot, and the exactly-once drop
accounting over a concrete run that registers a type, creates an entity,
adds a component twice (the overwrite drops the first value), and destroys
the entity (dropping the second): two writes, two destructor runs, empty
teardown. -/
theorem C5_witness :
    ((deleteIndexByte [{ tag := 1, payload := [7] }] 0).2 =
        (if (ByteSlot.mk 1 [7]).tag = 0 then 0 else 1) ∧
      (deleteIndexByte [{ tag := 1, payload := [7] }] 0).1[0]? =
        some { tag := 0, payload := [7] } ∧
      deleteIndexByte (deleteIndexByte [{ tag := 1, payload := [7] }] 0).1 0 =
        ((deleteIndexByte [{ tag := 1, payload := [7] }] 0).1, 0)) ∧
    2 + teardownDrops ⟨0, 1, 0, none, [⟨false, 1⟩], [(5, [none])]⟩ = 2 :=
  ⟨C5_delete_index_drop_discipline.1 [{ tag := 1, payload := [7] }] 0
      { tag := 1, payload := [7] } rfl,
    C5_delete_index_drop_discipline.2 0 1
      [Op.registerComp 5, Op.create, Op.addComp 5 ⟨0, 0, 1⟩ 7,
        Op.addComp 5 ⟨0, 0, 1⟩ 9, Op.destroy ⟨0, 0, 1⟩]
      ⟨0, 1, 0, none, [⟨false, 1⟩], [(5, [none])]⟩ 2 2 rfl⟩

end Xcmpt
